import Mathlib

/-!
Shallow embedding of src/common/history.c (the darktable edit-history merge
engine).  The relational store is modelled explicitly: main.history,
main.images (history_end), main.mask and memory.style_items are lists of
records, and every SQL statement of the source is translated into a pure
list transformation.  The operation catalog (darktable.iop with the
IOP_FLAGS_ONE_INSTANCE flag) is a parameter cat : String → Bool, where
cat op = true means the module is found and flagged single-instance.
-/

/-- Row of main.history. -/
structure HRow where
  imgid : Int
  num : Int
  module : Int
  operation : String
  op_params : Nat
  enabled : Bool
  blendop_params : Nat
  blendop_version : Int
  multi_priority : Int
  multi_name : String
deriving DecidableEq

/-- Row of memory.style_items (the staging table); its position in the list
is its rowid minus one. -/
structure SRow where
  num : Int
  module : Int
  operation : String
  op_params : Nat
  enabled : Bool
  blendop_params : Nat
  blendop_version : Int
  multi_name : String
  multi_priority : Int
deriving DecidableEq

/-- Row of main.mask. -/
structure MRow where
  imgid : Int
  formid : Int
  form : Int
  name : String
  version : Int
  points : Nat
  points_count : Int
  source : Nat
deriving DecidableEq

/-- The database: history, images (id, history_end with NULL as none),
masks, and the scratch staging table. -/
structure DB where
  history : List HRow
  images : List (Int × Option Int)
  mask : List MRow
  style_items : List SRow
deriving DecidableEq

/-- SQL IFNULL(MAX(l), d): d on the empty list, the true maximum otherwise. -/
def sqlMax (d : Int) : List Int → Int
  | [] => d
  | x :: xs => xs.foldl max x

/-- Copy the payload of a history row into a staging row. -/
def toS (r : HRow) : SRow :=
  ⟨r.num, r.module, r.operation, r.op_params, r.enabled, r.blendop_params,
   r.blendop_version, r.multi_name, r.multi_priority⟩

/-- Materialize a staging row into the history of an image at a position. -/
def fromS (imgid num : Int) (s : SRow) : HRow :=
  ⟨imgid, num, s.module, s.operation, s.op_params, s.enabled, s.blendop_params,
   s.blendop_version, s.multi_priority, s.multi_name⟩

/-- Lexicographic comparison of character lists by code point, the order the
BINARY collation of the store gives UTF-8 encoded text. -/
def charListLt : List Char → List Char → Bool
  | _, [] => false
  | [], _ :: _ => true
  | a :: as, b :: bs =>
    if a.toNat < b.toNat then true
    else if b.toNat < a.toNat then false
    else charListLt as bs

/-- ORDER BY collation on operation names. -/
def strLt (a b : String) : Bool := charListLt a.data b.data

theorem charListLt_irrefl : ∀ l : List Char, charListLt l l = false := by
  intro l
  induction l with
  | nil => rfl
  | cons a as ih => simp [charListLt, ih]

theorem charListLt_asymm : ∀ l1 l2 : List Char,
    charListLt l1 l2 = true → charListLt l2 l1 = false := by
  intro l1
  induction l1 with
  | nil =>
    intro l2 h
    cases l2 with
    | nil => cases h
    | cons b bs => rfl
  | cons a as ih =>
    intro l2 h
    cases l2 with
    | nil => cases h
    | cons b bs =>
      simp only [charListLt] at h ⊢
      by_cases h1 : a.toNat < b.toNat
      · rw [if_neg (by omega), if_pos h1]
      · rw [if_neg h1] at h
        by_cases h2 : b.toNat < a.toNat
        · rw [if_pos h2] at h
          cases h
        · rw [if_neg h2] at h
          rw [if_neg h2, if_neg h1]
          exact ih bs h

theorem charListLt_trans : ∀ (l1 l2 l3 : List Char), charListLt l1 l2 = true →
    charListLt l2 l3 = true → charListLt l1 l3 = true := by
  intro l1
  induction l1 with
  | nil =>
    intro l2 l3 h12 h23
    cases l3 with
    | nil =>
      cases l2 with
      | nil => cases h12
      | cons b bs => cases h23
    | cons c cs => rfl
  | cons a as ih =>
    intro l2 l3 h12 h23
    cases l2 with
    | nil => cases h12
    | cons b bs =>
      cases l3 with
      | nil => cases h23
      | cons c cs =>
        simp only [charListLt] at h12 h23 ⊢
        by_cases hab : a.toNat < b.toNat
        · by_cases hbc : b.toNat < c.toNat
          · rw [if_pos (by omega)]
          · rw [if_neg hbc] at h23
            by_cases hcb : c.toNat < b.toNat
            · rw [if_pos hcb] at h23
              cases h23
            · rw [if_pos (by omega)]
        · rw [if_neg hab] at h12
          by_cases hba : b.toNat < a.toNat
          · rw [if_pos hba] at h12
            cases h12
          · rw [if_neg hba] at h12
            by_cases hbc : b.toNat < c.toNat
            · rw [if_pos (by omega)]
            · rw [if_neg hbc] at h23
              by_cases hcb : c.toNat < b.toNat
              · rw [if_pos hcb] at h23
                cases h23
              · rw [if_neg hcb] at h23
                rw [if_neg (by omega), if_neg (by omega)]
                exact ih bs cs h12 h23

theorem charListLt_conn : ∀ (l1 l2 : List Char), charListLt l1 l2 = false →
    charListLt l2 l1 = false → l1 = l2 := by
  intro l1
  induction l1 with
  | nil =>
    intro l2 h12 _
    cases l2 with
    | nil => rfl
    | cons b bs => cases h12
  | cons a as ih =>
    intro l2 h12 h21
    cases l2 with
    | nil => cases h21
    | cons b bs =>
      simp only [charListLt] at h12 h21
      by_cases hab : a.toNat < b.toNat
      · rw [if_pos hab] at h12
        cases h12
      · rw [if_neg hab] at h12
        by_cases hba : b.toNat < a.toNat
        · rw [if_pos hba] at h21
          cases h21
        · rw [if_neg hba] at h12
          rw [if_neg hba, if_neg hab] at h21
          have hn : a.toNat = b.toNat := by omega
          have hv : a = b := Char.ext (UInt32.ext hn)
          rw [hv, ih bs h12 h21]

theorem strLt_irrefl (a : String) : strLt a a = false := charListLt_irrefl a.data

theorem strLt_asymm (a b : String) (h : strLt a b = true) : strLt b a = false :=
  charListLt_asymm a.data b.data h

theorem strLt_trans (a b c : String) (h1 : strLt a b = true) (h2 : strLt b c = true) :
    strLt a c = true :=
  charListLt_trans a.data b.data c.data h1 h2

theorem strLt_conn (a b : String) (h1 : strLt a b = false) (h2 : strLt b a = false) :
    a = b := by
  cases a with
  | mk da =>
    cases b with
    | mk db =>
      have hd : da = db := charListLt_conn da db h1 h2
      rw [hd]

/-- ORDER BY operation, multi_priority on staging rows. -/
def srowLe (a b : SRow) : Prop :=
  strLt a.operation b.operation = true
    ∨ (a.operation = b.operation ∧ a.multi_priority ≤ b.multi_priority)

instance : DecidableRel srowLe := fun a b =>
  inferInstanceAs (Decidable (strLt a.operation b.operation = true
    ∨ (a.operation = b.operation ∧ a.multi_priority ≤ b.multi_priority)))

/-- The rows _dt_history_cleanup_multi_instance iterates over: all staging
rows sorted by (operation, multi_priority), single-instance modules skipped. -/
def cleanupSorted (cat : String → Bool) (s : List SRow) : List SRow :=
  (List.insertionSort srowLe s).filter (fun r => !cat r.operation)

/-- The renumbering walk of _dt_history_cleanup_multi_instance: state (op, c_mi),
reset c_mi to 0 when the operation changes, pair each row with its new
multi_priority. -/
def assignNew (op : String) (c : Int) : List SRow → List (SRow × Int)
  | [] => []
  | hi :: rest =>
    if hi.operation ≠ op then (hi, 0) :: assignNew hi.operation 1 rest
    else (hi, c) :: assignNew op (c + 1) rest

/-- The WHEN clauses of the cleanup UPDATE: rows whose multi_priority differs
from the newly assigned one. -/
def cleanupChanges (cat : String → Bool) (s : List SRow) : List (SRow × Int) :=
  (assignNew "" 0 (cleanupSorted cat s)).filter (fun p => p.1.multi_priority ≠ p.2)

/-- CASE num WHEN n1 THEN v1 ... ELSE multi_priority END applied to one row. -/
def applyChanges (ch : List (SRow × Int)) (r : SRow) : SRow :=
  match ch.find? (fun p => p.1.num = r.num) with
  | some p => { r with multi_priority := p.2 }
  | none => r

/-- _dt_history_cleanup_multi_instance: repair multi-instance numbering inside
the staging table; a no-op when nothing would change. -/
def _dt_history_cleanup_multi_instance (cat : String → Bool) (s : List SRow) : List SRow :=
  if cleanupChanges cat s = [] then s else s.map (applyChanges (cleanupChanges cat s))

/-- IFNULL(MAX(multi_priority), -1)+1 over the staging rows of one operation. -/
def stagingShift (staging : List SRow) (op : String) : Int :=
  sqlMax (-1) ((staging.filter (fun s => s.operation = op)).map (fun s => s.multi_priority)) + 1

/-- The per-row effect of the UPDATE in _history_rebuild_multi_priority_append
for one operation. -/
def appendStepRow (dest : Int) (staging : List SRow) (op : String) (r : HRow) : HRow :=
  if r.imgid = dest ∧ r.operation = op
  then { r with multi_priority := r.multi_priority + stagingShift staging op }
  else r

/-- _history_rebuild_multi_priority_append: for each distinct staging
operation that is not single-instance, shift the multi_priority of the
destination history rows of that operation. -/
def _history_rebuild_multi_priority_append (cat : String → Bool) (dest : Int)
    (staging : List SRow) (history : List HRow) : List HRow :=
  ((staging.map (fun s => s.operation)).dedup).foldl
    (fun h op => if cat op then h else h.map (appendStepRow dest staging op)) history

/-- ORDER BY operation, multi_priority on (operation, multi_priority) keys. -/
def keyLe (a b : String × Int) : Prop :=
  strLt a.1 b.1 = true ∨ (a.1 = b.1 ∧ a.2 ≤ b.2)

instance : DecidableRel keyLe := fun a b =>
  inferInstanceAs (Decidable (strLt a.1 b.1 = true ∨ (a.1 = b.1 ∧ a.2 ≤ b.2)))

/-- The row the bare columns of a MAX(num) aggregate come from. -/
def maxNumRow : List HRow → Option HRow
  | [] => none
  | x :: xs => some (xs.foldl (fun a b => if a.num < b.num then b else a) x)

/-- The SELECT of dt_history_rebuild_multi_priority_merge: last history entry
of each destination (operation, multi_priority) family whose operation occurs
in the staging table, ordered by (operation, multi_priority). -/
def destGroups (history : List HRow) (staging : List SRow) (dest : Int) : List HRow :=
  let rows := history.filter
    (fun r => r.imgid = dest ∧ staging.any (fun s => s.operation = r.operation))
  let keys := (rows.map (fun r => (r.operation, r.multi_priority))).dedup
  (List.insertionSort keyLe keys).filterMap
    (fun k => maxNumRow (rows.filter (fun r => r.operation = k.1 ∧ r.multi_priority = k.2)))

/-- State threaded through the reconciliation loop of
dt_history_rebuild_multi_priority_merge. -/
structure MergeState where
  operation_prev : String
  multi_priority_next : Int
  history : List HRow
  staging : List SRow
deriving DecidableEq

/-- SELECT MAX(multi_priority) FROM memory.style_items WHERE operation=?1,
read through sqlite3_column_int which turns NULL into 0. -/
def stagingSeed (staging : List SRow) (op : String) : Int :=
  sqlMax 0 ((staging.filter (fun s => s.operation = op)).map (fun s => s.multi_priority))

/-- First staging row with the given operation and multi_name that has not
been consumed (num >= 0). -/
def findMatch (staging : List SRow) (op name : String) : Option SRow :=
  staging.find? (fun s => s.operation = op ∧ s.multi_name = name ∧ 0 ≤ s.num)

/-- UPDATE main.history SET multi_priority = new WHERE imgid = dest AND
operation = op AND multi_priority = old. -/
def relabelFamily (history : List HRow) (dest : Int) (op : String) (old new : Int) : List HRow :=
  history.map (fun r =>
    if r.imgid = dest ∧ r.operation = op ∧ r.multi_priority = old
    then { r with multi_priority := new } else r)

/-- UPDATE memory.style_items SET num = -1 WHERE num = n. -/
def consumeNum (staging : List SRow) (n : Int) : List SRow :=
  staging.map (fun s => if s.num = n then { s with num := -1 } else s)

/-- One iteration of the reconciliation loop over a destination family. -/
def mergeStep (cat : String → Bool) (dest : Int) (st : MergeState) (g : HRow) : MergeState :=
  if cat g.operation then st
  else
    let next0 := if g.operation ≠ st.operation_prev then stagingSeed st.staging g.operation
                 else st.multi_priority_next
    match findMatch st.staging g.operation g.multi_name with
    | some r =>
      if 0 ≤ r.multi_priority then
        ⟨g.operation, next0,
         relabelFamily st.history dest g.operation g.multi_priority r.multi_priority,
         consumeNum st.staging r.num⟩
      else
        ⟨g.operation, next0 + 1,
         relabelFamily st.history dest g.operation g.multi_priority (next0 + 1),
         st.staging⟩
    | none =>
        ⟨g.operation, next0 + 1,
         relabelFamily st.history dest g.operation g.multi_priority (next0 + 1),
         st.staging⟩

/-- dt_history_rebuild_multi_priority_merge: Phase A (append shift) followed
by Phase B (reconciliation loop over destination families). -/
def dt_history_rebuild_multi_priority_merge (cat : String → Bool) (dest : Int)
    (history : List HRow) (staging : List SRow) : List HRow × List SRow :=
  let h1 := _history_rebuild_multi_priority_append cat dest staging history
  let fin := (destGroups h1 staging dest).foldl (mergeStep cat dest) ⟨"", -1, h1, staging⟩
  (fin.history, fin.staging)

/-- The non-collapsing staging SELECT: all source rows, or those whose num is
in the caller-supplied selection. -/
def plainSelect (history : List HRow) (imgid : Int) (ops : Option (List Int)) : List HRow :=
  (history.filter (fun r => r.imgid = imgid)).filter
    (fun r => match ops with | none => true | some l => l.contains r.num)

/-- ORDER BY max_num. -/
def numLe (a b : HRow) : Prop := a.num ≤ b.num

instance : DecidableRel numLe := fun a b => inferInstanceAs (Decidable (a.num ≤ b.num))

/-- The collapsing staging SELECT (merge with no explicit selection): the
last entry of every source (operation, multi_priority) family, ordered by
that entry's num. -/
def collapseSelect (history : List HRow) (imgid : Int) : List HRow :=
  let rows := history.filter (fun r => r.imgid = imgid)
  let keys := (rows.map (fun r => (r.operation, r.multi_priority))).dedup
  List.insertionSort numLe
    (keys.filterMap
      (fun k => maxNumRow (rows.filter (fun r => r.operation = k.1 ∧ r.multi_priority = k.2))))

/-- Build the staging table from the source image. -/
def stagingSelect (history : List HRow) (imgid : Int) (merge : Bool)
    (ops : Option (List Int)) : List SRow :=
  if merge ∧ ops = none then (collapseSelect history imgid).map toS
  else (plainSelect history imgid ops).map toS

/-- INSERT INTO main.history ... SELECT ?1, ?2+rowid-1, ... FROM
memory.style_items: row at list position i gets num = offs + i. -/
def insertRows (dest : Int) (offs : Int) : List SRow → List HRow
  | [] => []
  | s :: ss => fromS dest offs s :: insertRows dest (offs + 1) ss

/-- SELECT history_end FROM main.images WHERE id = ?: none when the image row
is absent or its history_end is NULL. -/
def historyEnd (images : List (Int × Option Int)) (id : Int) : Option Int :=
  (images.find? (fun p => p.1 = id)).bind (fun p => p.2)

/-- Keep-predicate of the merge-mode trim DELETE (num >= history_end); a NULL
history_end deletes nothing. -/
def trimKeep (hend : Option Int) (dest : Int) (r : HRow) : Bool :=
  match hend with
  | none => true
  | some e => !(r.imgid = dest ∧ e ≤ r.num)

/-- The nums of one image's history rows. -/
def destNumsL (history : List HRow) (dest : Int) : List Int :=
  (history.filter (fun r => r.imgid = dest)).map (fun r => r.num)

/-- dt_history_copy_and_paste_on_image: the full copy/paste pipeline.
Returns the C result code together with the final database. -/
def dt_history_copy_and_paste_on_image (cat : String → Bool) (db : DB)
    (imgid dest_imgid : Int) (merge : Bool) (ops : Option (List Int)) : Int × DB :=
  if imgid = dest_imgid then (1, db)
  else if imgid = -1 then (1, db)
  else
    let hend := historyEnd db.images dest_imgid
    let h1 := if merge then db.history.filter (trimKeep hend dest_imgid)
              else db.history.filter (fun r => r.imgid ≠ dest_imgid)
    let offs : Int := if merge then sqlMax (-1) (destNumsL h1 dest_imgid) + 1 else 0
    let stag0 := stagingSelect h1 imgid merge ops
    let hs := if merge then
                dt_history_rebuild_multi_priority_merge cat dest_imgid h1
                  (_dt_history_cleanup_multi_instance cat stag0)
              else (h1, stag0)
    let h3 := hs.1 ++ insertRows dest_imgid offs hs.2
    let mask1 := if merge then db.mask else db.mask.filter (fun m => m.imgid ≠ dest_imgid)
    let mask2 := mask1 ++ (mask1.filter (fun m => m.imgid = imgid)).map
      (fun m => { m with imgid := dest_imgid })
    let newEnd : Option Int :=
      match destNumsL h3 dest_imgid with
      | [] => none
      | x :: xs => some (xs.foldl max x + 1)
    let images2 := db.images.map (fun p => if p.1 = dest_imgid then (p.1, newEnd) else p)
    (0, ⟨h3, images2, mask2, hs.2⟩)

/-- dt_history_delete_on_image: drop all history and mask rows of the image
and reset its history_end to 0. -/
def dt_history_delete_on_image (db : DB) (imgid : Int) : DB :=
  ⟨db.history.filter (fun r => r.imgid ≠ imgid),
   db.images.map (fun p => if p.1 = imgid then (p.1, some 0) else p),
   db.mask.filter (fun m => m.imgid ≠ imgid),
   db.style_items⟩

/-- The loop body of dt_history_copy_and_paste_on_selection, also collecting
the per-destination result codes the C code lets drop. -/
def pasteFold (cat : String → Bool) (imgid : Int) (merge : Bool)
    (ops : Option (List Int)) : DB → List Int → List Int × DB
  | db, [] => ([], db)
  | db, d :: ds =>
    let r := dt_history_copy_and_paste_on_image cat db imgid d merge ops
    let rest := pasteFold cat imgid merge ops r.2 ds
    (r.1 :: rest.1, rest.2)

/-- dt_history_copy_and_paste_on_selection: paste onto every selected image
other than the source; result 1 exactly when the source id is negative or no
such image exists. -/
def dt_history_copy_and_paste_on_selection (cat : String → Bool) (db : DB)
    (selected : List Int) (imgid : Int) (merge : Bool) (ops : Option (List Int)) : Int × DB :=
  if imgid < 0 then (1, db)
  else
    match selected.filter (fun d => d ≠ imgid) with
    | [] => (1, db)
    | d :: ds => (0, (pasteFold cat imgid merge ops db (d :: ds)).2)

/-! ## Helper lemmas -/

/-- Helper: past the two guard checks the copy/paste result code is 0. -/
theorem copy_fst_eq_zero (cat : String → Bool) (db : DB) (imgid dest_imgid : Int)
    (merge : Bool) (ops : Option (List Int)) (h1 : imgid ≠ dest_imgid) (h2 : imgid ≠ -1) :
    (dt_history_copy_and_paste_on_image cat db imgid dest_imgid merge ops).1 = 0 := by
  unfold dt_history_copy_and_paste_on_image
  rw [if_neg h1, if_neg h2]

/-- Helper: the append fold over a duplicate-free operation list acts on each
history row at most once. -/
theorem append_foldl_shift (dest : Int) (staging : List SRow) (cat : String → Bool) :
    ∀ (opsl : List String), opsl.Nodup → ∀ (h : List HRow),
    opsl.foldl (fun h op => if cat op then h else h.map (appendStepRow dest staging op)) h
      = h.map (fun r =>
          if r.imgid = dest ∧ r.operation ∈ opsl ∧ ¬ (cat r.operation = true)
          then { r with multi_priority := r.multi_priority + stagingShift staging r.operation }
          else r) := by
  intro opsl
  induction opsl with
  | nil =>
    intro _ h
    simp
  | cons op rest ih =>
    intro hnd h
    have hop : op ∉ rest := (List.nodup_cons.mp hnd).1
    have hrest : rest.Nodup := (List.nodup_cons.mp hnd).2
    rw [List.foldl_cons]
    by_cases hc : cat op = true
    · rw [if_pos hc, ih hrest h]
      apply List.map_congr_left
      intro r _
      by_cases hro : r.operation = op
      · subst hro
        simp [hc]
      · simp [List.mem_cons, hro]
    · rw [if_neg hc, ih hrest, List.map_map]
      apply List.map_congr_left
      intro r _
      simp only [Function.comp_apply]
      by_cases hd : r.imgid = dest
      · by_cases hro : r.operation = op
        · subst hro
          simp [appendStepRow, hd, hop, hc]
        · simp [appendStepRow, hro, List.mem_cons]
      · simp [appendStepRow, hd]

/-! ## Claims -/

/-- C1: copyAndPaste with sourceId equal to destId always fails with result
code 1 and leaves the whole database, in particular the destination item's
history rows, unchanged; the guard fires before any staging or write. -/
theorem c1_self_copy_rejected (cat : String → Bool) (db : DB) (x : Int)
    (merge : Bool) (ops : Option (List Int)) :
    dt_history_copy_and_paste_on_image cat db x x merge ops = (1, db) := by
  unfold dt_history_copy_and_paste_on_image
  simp

/-- C10: whenever the source is distinct from the destination and not -1,
dt_history_copy_and_paste_on_image returns 0, for every database state: no
store outcome is consulted, so a store failure is never reported. -/
theorem c10_always_success (cat : String → Bool) (db : DB) (imgid dest_imgid : Int)
    (merge : Bool) (ops : Option (List Int)) (h1 : imgid ≠ dest_imgid) (h2 : imgid ≠ -1) :
    (dt_history_copy_and_paste_on_image cat db imgid dest_imgid merge ops).1 = 0 :=
  copy_fst_eq_zero cat db imgid dest_imgid merge ops h1 h2

/-- Witness for C10 at a concrete input. -/
theorem c10_witness :
    (2 : Int) ≠ 1 ∧ (2 : Int) ≠ -1 ∧
    (dt_history_copy_and_paste_on_image (fun _ => false) ⟨[], [], [], []⟩ 2 1 false none).1 = 0 :=
  ⟨by decide, by decide,
   c10_always_success (fun _ => false) ⟨[], [], [], []⟩ 2 1 false none (by decide) (by decide)⟩

/-- C3: Phase A shifts the instance of every existing destination history
entry whose operation appears in the staging set and is not single-instance
upward by exactly the staging maximum for that operation plus one
(stagingShift); every other entry is unchanged. -/
theorem c3_phase_a_shift (cat : String → Bool) (staging : List SRow) (dest : Int)
    (history : List HRow) :
    _history_rebuild_multi_priority_append cat dest staging history
      = history.map (fun r =>
          if r.imgid = dest ∧ (∃ s ∈ staging, s.operation = r.operation)
              ∧ ¬ (cat r.operation = true)
          then { r with multi_priority := r.multi_priority + stagingShift staging r.operation }
          else r) := by
  unfold _history_rebuild_multi_priority_append
  rw [append_foldl_shift dest staging cat _ (List.nodup_dedup _) history]
  apply List.map_congr_left
  intro r _
  by_cases hmem : r.operation ∈ (staging.map (fun s => s.operation)).dedup
  · have hex : ∃ s ∈ staging, s.operation = r.operation := by
      rcases List.mem_map.mp (List.mem_dedup.mp hmem) with ⟨s, hs, hso⟩
      exact ⟨s, hs, hso⟩
    by_cases hc : cat r.operation = true
    · rw [if_neg (by intro hcon; exact hcon.2.2 hc), if_neg (by intro hcon; exact hcon.2.2 hc)]
    · by_cases hd : r.imgid = dest
      · rw [if_pos ⟨hd, hmem, hc⟩, if_pos ⟨hd, hex, hc⟩]
      · rw [if_neg (by intro hcon; exact hd hcon.1), if_neg (by intro hcon; exact hd hcon.1)]
  · have hnex : ¬ ∃ s ∈ staging, s.operation = r.operation := by
      intro hcon
      rcases hcon with ⟨s, hs, hso⟩
      exact hmem (List.mem_dedup.mpr (List.mem_map.mpr ⟨s, hs, hso⟩))
    rw [if_neg (by intro hcon; exact hmem hcon.2.1), if_neg (by intro hcon; exact hnex hcon.2.1)]

/-- Helper: the initial accumulator never exceeds a foldl over max. -/
theorem foldl_max_init_le (l : List Int) : ∀ a : Int, a ≤ l.foldl max a := by
  induction l with
  | nil => intro a; simp
  | cons x xs ih =>
    intro a
    rw [List.foldl_cons]
    exact le_trans (le_max_left a x) (ih (max a x))

/-- Helper: every list element is bounded by a foldl over max. -/
theorem mem_le_foldl_max (l : List Int) : ∀ (a x : Int), x ∈ l → x ≤ l.foldl max a := by
  induction l with
  | nil => intro a x hx; cases hx
  | cons y ys ih =>
    intro a x hx
    rw [List.foldl_cons]
    rcases List.mem_cons.mp hx with h | h
    · subst h
      exact le_trans (le_max_right a x) (foldl_max_init_le ys (max a x))
    · exact ih (max a y) x h

/-- Helper: every element is bounded by sqlMax. -/
theorem le_sqlMax (d : Int) (l : List Int) (x : Int) (hx : x ∈ l) : x ≤ sqlMax d l := by
  cases l with
  | nil => cases hx
  | cons y ys =>
    rcases List.mem_cons.mp hx with h | h
    · subst h
      exact foldl_max_init_le ys x
    · exact mem_le_foldl_max ys y x h

/-- Helper: a staging row's instance is bounded by the per-operation seed. -/
theorem mp_le_stagingSeed (staging : List SRow) (op : String) (s : SRow)
    (hs : s ∈ staging) (hop : s.operation = op) :
    s.multi_priority ≤ stagingSeed staging op := by
  apply le_sqlMax
  exact List.mem_map.mpr ⟨s, List.mem_filter.mpr ⟨hs, by simp [hop]⟩, rfl⟩

/-- C4 counterexample: the destination has one blur family labeled with the
unnamed sentinel "0" and the staging set holds two unnamed blur entries, so
the single-candidate condition fails; the claim says the destination family
must not be matched-and-replaced, yet the code aligns it with the first
unnamed staging row (instance becomes 1) and consumes that row (num -1). -/
theorem c4_counterexample :
    dt_history_rebuild_multi_priority_merge (fun _ => false) 1
        [⟨1, 0, 1, "blur", 0, true, 0, 1, 0, "0"⟩]
        [⟨0, 1, "blur", 7, true, 0, 1, "0", 1⟩, ⟨1, 1, "blur", 8, true, 0, 1, "0", 0⟩]
      = ([⟨1, 0, 1, "blur", 0, true, 0, 1, 1, "0"⟩],
         [⟨-1, 1, "blur", 7, true, 0, 1, "0", 1⟩, ⟨1, 1, "blur", 8, true, 0, 1, "0", 0⟩]) := by
  decide

/-- C4 (amended): Phase B matching is plain (operation, multi_name) string
equality against not-yet-consumed staging rows with no special treatment of
the "0" unnamed sentinel: whenever any unconsumed staging row carries the
destination family's operation and label, and staging instances are
non-negative, the family is relabeled to such a row's instance and that row
is consumed — regardless of how many candidates share the label. -/
theorem c4_exact_label_matching (cat : String → Bool) (dest : Int)
    (st : MergeState) (g : HRow)
    (hcat : cat g.operation = false)
    (hex : ∃ s ∈ st.staging, s.operation = g.operation ∧ s.multi_name = g.multi_name ∧ 0 ≤ s.num)
    (hpos : ∀ s ∈ st.staging, 0 ≤ s.multi_priority) :
    ∃ r ∈ st.staging, r.operation = g.operation ∧ r.multi_name = g.multi_name ∧ 0 ≤ r.num ∧
      (mergeStep cat dest st g).history
        = relabelFamily st.history dest g.operation g.multi_priority r.multi_priority ∧
      (mergeStep cat dest st g).staging = consumeNum st.staging r.num := by
  rcases hex with ⟨s, hs, hsp⟩
  have hsome : (findMatch st.staging g.operation g.multi_name).isSome := by
    unfold findMatch
    rw [List.find?_isSome]
    exact ⟨s, hs, by simp [hsp.1, hsp.2.1, hsp.2.2]⟩
  rcases Option.isSome_iff_exists.mp hsome with ⟨r, hr⟩
  have hmem : r ∈ st.staging := List.mem_of_find?_eq_some hr
  have hprop := List.find?_some hr
  have hro : r.operation = g.operation := by
    simp only [decide_eq_true_eq] at hprop
    exact hprop.1
  have hrn : r.multi_name = g.multi_name := by
    simp only [decide_eq_true_eq] at hprop
    exact hprop.2.1
  have hrnum : 0 ≤ r.num := by
    simp only [decide_eq_true_eq] at hprop
    exact hprop.2.2
  refine ⟨r, hmem, hro, hrn, hrnum, ?_, ?_⟩
  · unfold mergeStep
    rw [if_neg (by simp [hcat])]
    simp only [hr, if_pos (hpos r hmem)]
  · unfold mergeStep
    rw [if_neg (by simp [hcat])]
    simp only [hr, if_pos (hpos r hmem)]

/-- Witness for C4's amended theorem: the counterexample scenario itself, a
"0"-labeled destination family and two unnamed staging candidates. -/
theorem c4_witness :
    ((fun (_ : String) => false) "blur" = false) ∧
    (∃ s ∈ ([⟨0, 1, "blur", 7, true, 0, 1, "0", 1⟩,
             ⟨1, 1, "blur", 8, true, 0, 1, "0", 0⟩] : List SRow),
       s.operation = "blur" ∧ s.multi_name = "0" ∧ 0 ≤ s.num) ∧
    (∃ r ∈ ([⟨0, 1, "blur", 7, true, 0, 1, "0", 1⟩,
             ⟨1, 1, "blur", 8, true, 0, 1, "0", 0⟩] : List SRow),
       r.operation = "blur" ∧ r.multi_name = "0" ∧ 0 ≤ r.num ∧
       (mergeStep (fun _ => false) 1
          ⟨"", -1, [⟨1, 0, 1, "blur", 0, true, 0, 1, 2, "0"⟩],
           [⟨0, 1, "blur", 7, true, 0, 1, "0", 1⟩, ⟨1, 1, "blur", 8, true, 0, 1, "0", 0⟩]⟩
          ⟨1, 0, 1, "blur", 0, true, 0, 1, 2, "0"⟩).history
         = relabelFamily [⟨1, 0, 1, "blur", 0, true, 0, 1, 2, "0"⟩] 1 "blur" 2 r.multi_priority ∧
       (mergeStep (fun _ => false) 1
          ⟨"", -1, [⟨1, 0, 1, "blur", 0, true, 0, 1, 2, "0"⟩],
           [⟨0, 1, "blur", 7, true, 0, 1, "0", 1⟩, ⟨1, 1, "blur", 8, true, 0, 1, "0", 0⟩]⟩
          ⟨1, 0, 1, "blur", 0, true, 0, 1, 2, "0"⟩).staging
         = consumeNum [⟨0, 1, "blur", 7, true, 0, 1, "0", 1⟩,
                       ⟨1, 1, "blur", 8, true, 0, 1, "0", 0⟩] r.num) :=
  ⟨by decide, by decide,
   c4_exact_label_matching (fun _ => false) 1
     ⟨"", -1, [⟨1, 0, 1, "blur", 0, true, 0, 1, 2, "0"⟩],
      [⟨0, 1, "blur", 7, true, 0, 1, "0", 1⟩, ⟨1, 1, "blur", 8, true, 0, 1, "0", 0⟩]⟩
     ⟨1, 0, 1, "blur", 0, true, 0, 1, 2, "0"⟩
     (by decide) (by decide) (by decide)⟩

/-- C5: a destination family of a multi-instance operation with no unconsumed
label match is relabeled to the per-operation counter's next slot: the
counter is seeded from the staging maximum for the operation on an operation
change, incremented before the assignment, and the fresh slot lies strictly
after every incoming staging instance of that operation. -/
theorem c5_unmatched_fresh_slot (cat : String → Bool) (dest : Int)
    (st : MergeState) (g : HRow)
    (hcat : cat g.operation = false)
    (hno : ∀ s ∈ st.staging, ¬(s.operation = g.operation ∧ s.multi_name = g.multi_name ∧ 0 ≤ s.num))
    (hinv : g.operation = st.operation_prev →
      stagingSeed st.staging g.operation ≤ st.multi_priority_next) :
    (mergeStep cat dest st g).multi_priority_next
        = (if g.operation ≠ st.operation_prev then stagingSeed st.staging g.operation
           else st.multi_priority_next) + 1 ∧
    (mergeStep cat dest st g).history
        = relabelFamily st.history dest g.operation g.multi_priority
            ((if g.operation ≠ st.operation_prev then stagingSeed st.staging g.operation
              else st.multi_priority_next) + 1) ∧
    (mergeStep cat dest st g).staging = st.staging ∧
    (∀ s ∈ st.staging, s.operation = g.operation →
      s.multi_priority < (mergeStep cat dest st g).multi_priority_next) := by
  have hnone : findMatch st.staging g.operation g.multi_name = none := by
    unfold findMatch
    rw [List.find?_eq_none]
    intro s hs
    simp only [decide_eq_true_eq]
    exact hno s hs
  have hstep : mergeStep cat dest st g
      = ⟨g.operation,
         (if g.operation ≠ st.operation_prev then stagingSeed st.staging g.operation
          else st.multi_priority_next) + 1,
         relabelFamily st.history dest g.operation g.multi_priority
           ((if g.operation ≠ st.operation_prev then stagingSeed st.staging g.operation
             else st.multi_priority_next) + 1),
         st.staging⟩ := by
    unfold mergeStep
    rw [if_neg (by simp [hcat])]
    simp only [hnone]
  have hnext : (mergeStep cat dest st g).multi_priority_next
      = (if g.operation ≠ st.operation_prev then stagingSeed st.staging g.operation
         else st.multi_priority_next) + 1 := by rw [hstep]
  refine ⟨hnext, by rw [hstep], by rw [hstep], ?_⟩
  intro s hs hsop
  rw [hnext]
  have hle : s.multi_priority ≤ stagingSeed st.staging g.operation :=
    mp_le_stagingSeed st.staging g.operation s hs hsop
  by_cases hprev : g.operation = st.operation_prev
  · have := hinv hprev
    rw [if_neg (by simp [hprev])]
    omega
  · rw [if_pos hprev]
    omega

/-- Witness for C5: a fresh operation with one staging row whose label does
not match the destination family's label. -/
theorem c5_witness :
    ((fun (_ : String) => false) "blur" = false) ∧
    (mergeStep (fun _ => false) 1
       ⟨"", -1, [⟨1, 0, 1, "blur", 0, true, 0, 1, 1, "strong"⟩],
        [⟨0, 1, "blur", 7, true, 0, 1, "soft", 0⟩]⟩
       ⟨1, 0, 1, "blur", 0, true, 0, 1, 1, "strong"⟩).multi_priority_next = 1 := by
  have h := c5_unmatched_fresh_slot (fun _ => false) 1
    ⟨"", -1, [⟨1, 0, 1, "blur", 0, true, 0, 1, 1, "strong"⟩],
     [⟨0, 1, "blur", 7, true, 0, 1, "soft", 0⟩]⟩
    ⟨1, 0, 1, "blur", 0, true, 0, 1, 1, "strong"⟩
    (by decide) (by decide) (by decide)
  exact ⟨by decide, by rw [h.1]; decide⟩

instance : IsTotal SRow srowLe := ⟨by
  intro a b
  unfold srowLe
  by_cases h1 : strLt a.operation b.operation = true
  · exact Or.inl (Or.inl h1)
  · by_cases h2 : strLt b.operation a.operation = true
    · exact Or.inr (Or.inl h2)
    · have he : a.operation = b.operation :=
        strLt_conn a.operation b.operation
          (Bool.not_eq_true _ ▸ h1) (Bool.not_eq_true _ ▸ h2)
      rcases le_total a.multi_priority b.multi_priority with h3 | h3
      · exact Or.inl (Or.inr ⟨he, h3⟩)
      · exact Or.inr (Or.inr ⟨he.symm, h3⟩)⟩

instance : IsTrans SRow srowLe := ⟨by
  intro a b c hab hbc
  unfold srowLe at hab hbc ⊢
  rcases hab with h1 | ⟨h1e, h1le⟩
  · rcases hbc with h2 | ⟨h2e, h2le⟩
    · exact Or.inl (strLt_trans a.operation b.operation c.operation h1 h2)
    · exact Or.inl (by rw [← h2e]; exact h1)
  · rcases hbc with h2 | ⟨h2e, h2le⟩
    · exact Or.inl (by rw [h1e]; exact h2)
    · exact Or.inr ⟨h1e.trans h2e, le_trans h1le h2le⟩⟩

/-- Helper: the rows the cleanup walk visits are weakly sorted by operation,
so equal operations are contiguous. -/
theorem cleanupSorted_pairwise (cat : String → Bool) (s : List SRow) :
    List.Pairwise (fun a b : SRow => strLt b.operation a.operation = false)
      (cleanupSorted cat s) := by
  unfold cleanupSorted
  apply List.Pairwise.sublist (List.filter_sublist _)
  have hs : List.Sorted srowLe (List.insertionSort srowLe s) :=
    List.sorted_insertionSort srowLe s
  refine hs.imp ?_
  intro a b hab
  rcases hab with h | ⟨he, _⟩
  · exact strLt_asymm a.operation b.operation h
  · rw [he]
    exact strLt_irrefl b.operation

/-- Helper: on a list weakly sorted by operation whose instance numbers count
same-operation predecessors (offset by the starting counter for the current
operation), the cleanup walk reassigns every row its own instance number. -/
theorem assignNew_fixed (t : List SRow) :
    ∀ (op0 : String) (c0 : Int),
    List.Pairwise (fun a b : SRow => strLt b.operation a.operation = false) t →
    (c0 = 0 ∨ ∀ x ∈ t, strLt x.operation op0 = false) →
    (∀ i : Fin t.length, (t.get i).multi_priority
        = (if (t.get i).operation = op0 then c0 else 0)
          + ((t.take i.val).countP (fun y => y.operation = (t.get i).operation) : Int)) →
    ∀ p ∈ assignNew op0 c0 t, p.2 = p.1.multi_priority := by
  induction t with
  | nil =>
    intro op0 c0 _ _ _ p hp
    simp only [assignNew] at hp
    cases hp
  | cons x rest ih =>
    intro op0 c0 hpw hdisj hidx p hp
    have hpw1 : ∀ y ∈ rest, strLt y.operation x.operation = false :=
      (List.pairwise_cons.mp hpw).1
    have hpw2 : List.Pairwise (fun a b : SRow => strLt b.operation a.operation = false) rest :=
      (List.pairwise_cons.mp hpw).2
    have hx0 := hidx ⟨0, Nat.succ_pos _⟩
    simp only [List.get, List.take, List.countP, List.countP.go] at hx0
    have htail : ∀ i : Fin rest.length,
        (rest.get i).multi_priority
          = (if (rest.get i).operation = op0 then c0 else 0)
            + (((rest.take i.val).countP
                (fun y => y.operation = (rest.get i).operation)) : Int)
            + (if x.operation = (rest.get i).operation then 1 else 0) := by
      intro i
      have h2 : i.val + 1 < (x :: rest).length := Nat.succ_lt_succ i.isLt
      have hstep := hidx ⟨i.val + 1, h2⟩
      have hget : (x :: rest).get ⟨i.val + 1, h2⟩ = rest.get i := rfl
      rw [hget, List.take_succ_cons, List.countP_cons] at hstep
      by_cases hro : (rest.get i).operation = op0
      · rw [if_pos hro] at hstep ⊢
        by_cases hxe : x.operation = (rest.get i).operation
        · rw [if_pos (decide_eq_true hxe)] at hstep
          rw [if_pos hxe]
          push_cast at hstep ⊢
          omega
        · rw [if_neg (show ¬ decide (x.operation = (rest.get i).operation) = true from
            fun hcon => hxe (of_decide_eq_true hcon))] at hstep
          rw [if_neg hxe]
          push_cast at hstep ⊢
          omega
      · rw [if_neg hro] at hstep ⊢
        by_cases hxe : x.operation = (rest.get i).operation
        · rw [if_pos (decide_eq_true hxe)] at hstep
          rw [if_pos hxe]
          push_cast at hstep ⊢
          omega
        · rw [if_neg (show ¬ decide (x.operation = (rest.get i).operation) = true from
            fun hcon => hxe (of_decide_eq_true hcon))] at hstep
          rw [if_neg hxe]
          push_cast at hstep ⊢
          omega
    by_cases hxo : x.operation = op0
    · simp only [assignNew, if_neg (not_not_intro hxo)] at hp
      rcases List.mem_cons.mp hp with hph | hpt
      · subst hph
        rw [if_pos hxo] at hx0
        show c0 = x.multi_priority
        omega
      · refine ih op0 (c0 + 1) hpw2 (Or.inr ?_) ?_ p hpt
        · intro y hy
          rw [← hxo]
          exact hpw1 y hy
        · intro i
          have hti := htail i
          by_cases hro : (rest.get i).operation = op0
          · rw [if_pos hro] at hti ⊢
            rw [if_pos (hxo.trans hro.symm)] at hti
            omega
          · rw [if_neg hro] at hti ⊢
            rw [if_neg (show ¬ x.operation = (rest.get i).operation from
              fun hcon => hro (hcon.symm.trans hxo))] at hti
            omega
    · simp only [assignNew, if_pos hxo] at hp
      rcases List.mem_cons.mp hp with hph | hpt
      · subst hph
        rw [if_neg hxo] at hx0
        show (0 : Int) = x.multi_priority
        omega
      · refine ih x.operation 1 hpw2 (Or.inr hpw1) ?_ p hpt
        intro i
        have hti := htail i
        by_cases hxi : (rest.get i).operation = x.operation
        · have hrio : ¬ (rest.get i).operation = op0 := by
            rw [hxi]; exact hxo
          rw [if_neg hrio, if_pos hxi.symm] at hti
          rw [if_pos hxi]
          omega
        · have hne2 : ¬ x.operation = (rest.get i).operation := fun hcon => hxi hcon.symm
          rw [if_neg hxi]
          by_cases hrio : (rest.get i).operation = op0
          · rcases hdisj with hc0 | hall
            · rw [if_pos hrio, if_neg hne2, hc0] at hti
              omega
            · exfalso
              apply hxo
              have h1 : strLt (rest.get i).operation x.operation = false :=
                hpw1 (rest.get i) (List.get_mem rest i.val i.isLt)
              rw [hrio] at h1
              exact strLt_conn x.operation op0 (hall x (List.mem_cons_self x rest)) h1
          · rw [if_neg hrio, if_neg hne2] at hti
            omega

/-- A staging set is normalized when, in the cleanup's sorted multi-instance
view, every row's instance equals the number of same-operation rows before
it, i.e. each operation group carries 0, 1, ..., k-1 in order. -/
def NormalizedStaging (cat : String → Bool) (s : List SRow) : Prop :=
  ∀ i : Fin (cleanupSorted cat s).length,
    ((cleanupSorted cat s).get i).multi_priority
      = ((((cleanupSorted cat s).take i.val).countP
          (fun y => y.operation = ((cleanupSorted cat s).get i).operation)) : Int)

instance (cat : String → Bool) (s : List SRow) : Decidable (NormalizedStaging cat s) := by
  unfold NormalizedStaging
  exact decidable_of_iff
    (((List.finRange (cleanupSorted cat s).length).all
      (fun i => decide (((cleanupSorted cat s).get i).multi_priority
        = ((((cleanupSorted cat s).take i.val).countP
            (fun y => y.operation = ((cleanupSorted cat s).get i).operation)) : Int)))) = true)
    (by
      rw [List.all_eq_true]
      constructor
      · intro h i
        exact of_decide_eq_true (h i (List.mem_finRange i))
      · intro h i _
        exact decide_eq_true (h i))

/-- C6: on an already-normalized staging set the cleanup computes zero
changes, performs no update (it returns its input), and hence running it
twice equals running it once. -/
theorem c6_normalizer_idempotent (cat : String → Bool) (s : List SRow)
    (h : NormalizedStaging cat s) :
    _dt_history_cleanup_multi_instance cat s = s ∧
    _dt_history_cleanup_multi_instance cat (_dt_history_cleanup_multi_instance cat s)
      = _dt_history_cleanup_multi_instance cat s := by
  have hfix : ∀ p ∈ assignNew "" 0 (cleanupSorted cat s), p.2 = p.1.multi_priority := by
    refine assignNew_fixed (cleanupSorted cat s) "" 0 (cleanupSorted_pairwise cat s)
      (Or.inl rfl) ?_
    intro i
    have := h i
    simpa using this
  have hch : cleanupChanges cat s = [] := by
    unfold cleanupChanges
    rw [List.filter_eq_nil_iff]
    intro p hp
    simp [hfix p hp]
  have h1 : _dt_history_cleanup_multi_instance cat s = s := by
    unfold _dt_history_cleanup_multi_instance
    rw [if_pos hch]
  exact ⟨h1, by rw [h1, h1]⟩

/-- Witness for C6: a two-instance staging set already numbered 0, 1. -/
theorem c6_witness :
    NormalizedStaging (fun _ => false)
      [⟨0, 1, "a", 0, true, 0, 1, "0", 0⟩, ⟨1, 1, "a", 0, true, 0, 1, "x", 1⟩] ∧
    _dt_history_cleanup_multi_instance (fun _ => false)
      [⟨0, 1, "a", 0, true, 0, 1, "0", 0⟩, ⟨1, 1, "a", 0, true, 0, 1, "x", 1⟩]
      = [⟨0, 1, "a", 0, true, 0, 1, "0", 0⟩, ⟨1, 1, "a", 0, true, 0, 1, "x", 1⟩] :=
  ⟨by decide,
   (c6_normalizer_idempotent (fun _ => false)
     [⟨0, 1, "a", 0, true, 0, 1, "0", 0⟩, ⟨1, 1, "a", 0, true, 0, 1, "x", 1⟩]
     (by decide)).1⟩

/-- Helper: every per-destination result code produced inside the selection
loop is 0, since each destination differs from the source. -/
theorem pasteFold_codes_zero (cat : String → Bool) (imgid : Int) (merge : Bool)
    (ops : Option (List Int)) :
    ∀ (dests : List Int) (db : DB), (∀ d ∈ dests, d ≠ imgid) → imgid ≠ -1 →
    ∀ c ∈ (pasteFold cat imgid merge ops db dests).1, c = 0 := by
  intro dests
  induction dests with
  | nil =>
    intro db _ _ c hc
    simp only [pasteFold] at hc
    cases hc
  | cons d ds ih =>
    intro db hne hm1 c hc
    simp only [pasteFold] at hc
    rcases List.mem_cons.mp hc with h1 | h2
    · rw [h1]
      exact copy_fst_eq_zero cat db imgid d merge ops
        (fun he => hne d (List.mem_cons_self d ds) he.symm) hm1
    · exact ih _ (fun x hx => hne x (List.mem_cons_of_mem _ hx)) hm1 c h2

/-- C8: copyAndPasteOnSelection applies copyAndPaste from the source to every
other selected item in order (threading the database through pasteFold),
never aborts on a per-item result, every per-item result is 0, and its result
code satisfies the failure aggregation: nonzero exactly when some destination
failed or there was no other selected item. -/
theorem c8_selection_batch (cat : String → Bool) (db : DB) (selected : List Int)
    (imgid : Int) (merge : Bool) (ops : Option (List Int)) (h : 0 ≤ imgid) :
    dt_history_copy_and_paste_on_selection cat db selected imgid merge ops
        = (if selected.filter (fun d => d ≠ imgid) = [] then 1 else 0,
           (pasteFold cat imgid merge ops db (selected.filter (fun d => d ≠ imgid))).2)
    ∧ (∀ c ∈ (pasteFold cat imgid merge ops db (selected.filter (fun d => d ≠ imgid))).1,
        c = 0)
    ∧ ((if selected.filter (fun d => d ≠ imgid) = [] then (1 : Int) else 0) ≠ 0
        ↔ (selected.filter (fun d => d ≠ imgid) = []
           ∨ ((pasteFold cat imgid merge ops db
                (selected.filter (fun d => d ≠ imgid))).1.any (fun c => c ≠ 0)) = true)) := by
  have hm1 : imgid ≠ -1 := by omega
  have hmem : ∀ d ∈ selected.filter (fun d => d ≠ imgid), d ≠ imgid := by
    intro d hd
    have := (List.mem_filter.mp hd).2
    simpa using this
  have hzero := pasteFold_codes_zero cat imgid merge ops
    (selected.filter (fun d => d ≠ imgid)) db hmem hm1
  refine ⟨?_, hzero, ?_⟩
  · unfold dt_history_copy_and_paste_on_selection
    rw [if_neg (by omega)]
    cases hfe : selected.filter (fun d => d ≠ imgid) with
    | nil =>
      rw [if_pos rfl]
      simp only [pasteFold]
    | cons d ds =>
      rw [if_neg (by simp)]
  · have hany : ((pasteFold cat imgid merge ops db
        (selected.filter (fun d => d ≠ imgid))).1.any (fun c => c ≠ 0)) = false := by
      rw [Bool.eq_false_iff]
      intro hcon
      rcases List.any_eq_true.mp hcon with ⟨c, hc, hcne⟩
      rw [hzero c hc] at hcne
      simp at hcne
    by_cases hfe : selected.filter (fun d => d ≠ imgid) = []
    · rw [if_pos hfe]
      constructor
      · intro _
        exact Or.inl hfe
      · intro _
        omega
    · rw [if_neg hfe]
      constructor
      · intro hcon
        exact absurd rfl hcon
      · intro hcon
        rcases hcon with hcon | hcon
        · exact absurd hcon hfe
        · rw [hany] at hcon
          cases hcon

/-- Witness for C8: one selected destination distinct from the source. -/
theorem c8_witness :
    (0 : Int) ≤ 0 ∧
    dt_history_copy_and_paste_on_selection (fun _ => false) ⟨[], [], [], []⟩ [1] 0 false none
      = (if ([1] : List Int).filter (fun d => d ≠ 0) = [] then 1 else 0,
         (pasteFold (fun _ => false) 0 false none ⟨[], [], [], []⟩
           (([1] : List Int).filter (fun d => d ≠ 0))).2) :=
  ⟨by decide,
   (c8_selection_batch (fun _ => false) ⟨[], [], [], []⟩ [1] 0 false none (by decide)).1⟩

/-- Payload equality between history rows: every stored field except the
owning image and the stack position. -/
def samePayload (r s : HRow) : Prop :=
  r.module = s.module ∧ r.operation = s.operation ∧ r.op_params = s.op_params ∧
  r.enabled = s.enabled ∧ r.blendop_params = s.blendop_params ∧
  r.blendop_version = s.blendop_version ∧ r.multi_priority = s.multi_priority ∧
  r.multi_name = s.multi_name

/-- Helper: shape of a replace-mode copy: destination history rows deleted,
staging selected from what remains, inserted from position 0; destination
masks deleted and the source masks copied over. -/
theorem copy_replace_parts (cat : String → Bool) (db : DB) (A B : Int)
    (ops : Option (List Int)) (hAB : A ≠ B) (hA : A ≠ -1) :
    (dt_history_copy_and_paste_on_image cat db A B false ops).2.history
        = db.history.filter (fun r => r.imgid ≠ B)
          ++ insertRows B 0 ((plainSelect (db.history.filter (fun r => r.imgid ≠ B)) A ops).map toS)
    ∧ (dt_history_copy_and_paste_on_image cat db A B false ops).2.mask
        = db.mask.filter (fun m => m.imgid ≠ B)
          ++ ((db.mask.filter (fun m => m.imgid ≠ B)).filter (fun m => m.imgid = A)).map
              (fun m => { m with imgid := B }) := by
  unfold dt_history_copy_and_paste_on_image
  rw [if_neg hAB, if_neg hA]
  exact ⟨rfl, rfl⟩

theorem insertRows_length (dest : Int) : ∀ (l : List SRow) (offs : Int),
    (insertRows dest offs l).length = l.length := by
  intro l
  induction l with
  | nil => intro offs; rfl
  | cons s ss ih =>
    intro offs
    simp only [insertRows, List.length_cons, ih]

theorem insertRows_getElem (dest : Int) : ∀ (l : List SRow) (offs : Int) (i : Nat)
    (hf : i < (insertRows dest offs l).length) (hs : i < l.length),
    (insertRows dest offs l)[i] = fromS dest (offs + i) l[i] := by
  intro l
  induction l with
  | nil =>
    intro offs i hf hs
    cases hs
  | cons s ss ih =>
    intro offs i hf hs
    cases i with
    | zero =>
      show fromS dest offs s = fromS dest (offs + (0 : Nat)) s
      rw [Nat.cast_zero, add_zero]
    | succ j =>
      have hf2 : j < (insertRows dest (offs + 1) ss).length := by
        simp only [insertRows, List.length_cons] at hf
        omega
      have hs2 : j < ss.length := Nat.lt_of_succ_lt_succ hs
      show (insertRows dest (offs + 1) ss)[j] = fromS dest (offs + ((j + 1 : Nat) : Int)) ss[j]
      rw [ih (offs + 1) j hf2 hs2]
      have harith : offs + 1 + (j : Int) = offs + ((j + 1 : Nat) : Int) := by
        push_cast
        omega
      rw [harith]

theorem insertRows_imgid (dest : Int) : ∀ (l : List SRow) (offs : Int),
    ∀ r ∈ insertRows dest offs l, r.imgid = dest := by
  intro l
  induction l with
  | nil =>
    intro offs r hr
    cases hr
  | cons s ss ih =>
    intro offs r hr
    rcases List.mem_cons.mp hr with h1 | h2
    · rw [h1]
      rfl
    · exact ih (offs + 1) r h2

/-- Helper: rows of another image pass the delete-destination filter, so a
filter for image A commutes with deleting image B. -/
theorem filter_erase_other (l : List HRow) (A B : Int) (hAB : A ≠ B) :
    (l.filter (fun r => r.imgid ≠ B)).filter (fun r => r.imgid = A)
      = l.filter (fun r => r.imgid = A) := by
  rw [List.filter_filter]
  apply List.filter_congr
  intro r _
  by_cases h : r.imgid = A
  · simp [h, hAB]
  · simp [h]

theorem filter_erase_other_mask (l : List MRow) (A B : Int) (hAB : A ≠ B) :
    (l.filter (fun m => m.imgid ≠ B)).filter (fun m => m.imgid = A)
      = l.filter (fun m => m.imgid = A) := by
  rw [List.filter_filter]
  apply List.filter_congr
  intro m _
  by_cases h : m.imgid = A
  · simp [h, hAB]
  · simp [h]

/-- C9: replace-mode copy makes the destination's final history exactly the
source's selected entries — same length, seq renumbered consecutively from 0,
every payload field equal entry by entry — with all prior destination history
rows and mask rows deleted and the source's mask rows copied in. -/
theorem c9_replace_destructive (cat : String → Bool) (db : DB) (A B : Int)
    (ops : Option (List Int)) (hAB : A ≠ B) (hA : A ≠ -1) :
    ((dt_history_copy_and_paste_on_image cat db A B false ops).2.history.filter
        (fun r => r.imgid = B)).length = (plainSelect db.history A ops).length
    ∧ (∀ (i : Nat)
        (hf : i < ((dt_history_copy_and_paste_on_image cat db A B false ops).2.history.filter
          (fun r => r.imgid = B)).length)
        (hs : i < (plainSelect db.history A ops).length),
        ((((dt_history_copy_and_paste_on_image cat db A B false ops).2.history.filter
            (fun r => r.imgid = B))[i]).num = (i : Int))
        ∧ samePayload
            (((dt_history_copy_and_paste_on_image cat db A B false ops).2.history.filter
              (fun r => r.imgid = B))[i])
            ((plainSelect db.history A ops)[i]))
    ∧ (dt_history_copy_and_paste_on_image cat db A B false ops).2.mask.filter
          (fun m => m.imgid = B)
        = (db.mask.filter (fun m => m.imgid = A)).map (fun m => { m with imgid := B }) := by
  rcases copy_replace_parts cat db A B ops hAB hA with ⟨hh, hm⟩
  have hsel : plainSelect (db.history.filter (fun r => r.imgid ≠ B)) A ops
      = plainSelect db.history A ops := by
    unfold plainSelect
    rw [filter_erase_other db.history A B hAB]
  have hfin : (dt_history_copy_and_paste_on_image cat db A B false ops).2.history.filter
      (fun r => r.imgid = B)
      = insertRows B 0 ((plainSelect db.history A ops).map toS) := by
    rw [hh, List.filter_append]
    have h1 : (db.history.filter (fun r => r.imgid ≠ B)).filter (fun r => r.imgid = B)
        = [] := by
      rw [List.filter_eq_nil_iff]
      intro r hr
      have := (List.mem_filter.mp hr).2
      simpa using this
    have h2 : (insertRows B 0 ((plainSelect (db.history.filter (fun r => r.imgid ≠ B)) A
        ops).map toS)).filter (fun r => r.imgid = B)
        = insertRows B 0 ((plainSelect (db.history.filter (fun r => r.imgid ≠ B)) A ops).map
            toS) := by
      apply List.filter_eq_self.mpr
      intro r hr
      have := insertRows_imgid B _ 0 r hr
      simpa using this
    rw [h1, h2, hsel, List.nil_append]
  refine ⟨?_, ?_, ?_⟩
  · rw [hfin, insertRows_length, List.length_map]
  · intro i hf hs
    have hf2 : i < (insertRows B 0 ((plainSelect db.history A ops).map toS)).length := by
      rw [← hfin]
      exact hf
    have hs2 : i < ((plainSelect db.history A ops).map toS).length := by
      rw [List.length_map]
      exact hs
    have hkey : ((dt_history_copy_and_paste_on_image cat db A B false ops).2.history.filter
        (fun r => r.imgid = B))[i]
        = (insertRows B 0 ((plainSelect db.history A ops).map toS))[i] :=
      List.getElem_of_eq hfin hf
    rw [insertRows_getElem B ((plainSelect db.history A ops).map toS) 0 i hf2 hs2,
        List.getElem_map] at hkey
    rw [hkey]
    constructor
    · show (0 : Int) + (i : Int) = (i : Int)
      omega
    · exact ⟨rfl, rfl, rfl, rfl, rfl, rfl, rfl, rfl⟩
  · rw [hm, List.filter_append]
    have h1 : (db.mask.filter (fun m => m.imgid ≠ B)).filter (fun m => m.imgid = B) = [] := by
      rw [List.filter_eq_nil_iff]
      intro m hm2
      have := (List.mem_filter.mp hm2).2
      simpa using this
    have h2 : (((db.mask.filter (fun m => m.imgid ≠ B)).filter (fun m => m.imgid = A)).map
        (fun m => { m with imgid := B })).filter (fun m => m.imgid = B)
        = ((db.mask.filter (fun m => m.imgid ≠ B)).filter (fun m => m.imgid = A)).map
            (fun m => { m with imgid := B }) := by
      apply List.filter_eq_self.mpr
      intro m hm2
      rcases List.mem_map.mp hm2 with ⟨m0, _, hmeq⟩
      rw [← hmeq]
      simp
    rw [h1, h2, filter_erase_other_mask db.mask A B hAB, List.nil_append]

/-- Witness for C9: source image 2 with one row copied over destination 1
which had prior history and a mask. -/
theorem c9_witness :
    (2 : Int) ≠ 1 ∧ (2 : Int) ≠ -1 ∧
    ((dt_history_copy_and_paste_on_image (fun _ => false)
        ⟨[⟨1, 0, 1, "old", 9, true, 0, 1, 0, "0"⟩, ⟨2, 0, 1, "blur", 7, true, 0, 1, 0, "0"⟩],
         [(1, some 1), (2, some 1)],
         [⟨1, 4, 1, "dm", 1, 0, 0, 0⟩, ⟨2, 5, 1, "sm", 1, 0, 0, 0⟩], []⟩
        2 1 false none).2.mask.filter (fun m => m.imgid = 1))
      = (([⟨1, 4, 1, "dm", 1, 0, 0, 0⟩, ⟨2, 5, 1, "sm", 1, 0, 0, 0⟩] : List MRow).filter
          (fun m => m.imgid = 2)).map (fun m => { m with imgid := 1 }) :=
  ⟨by decide, by decide,
   (c9_replace_destructive (fun _ => false)
      ⟨[⟨1, 0, 1, "old", 9, true, 0, 1, 0, "0"⟩, ⟨2, 0, 1, "blur", 7, true, 0, 1, 0, "0"⟩],
       [(1, some 1), (2, some 1)],
       [⟨1, 4, 1, "dm", 1, 0, 0, 0⟩, ⟨2, 5, 1, "sm", 1, 0, 0, 0⟩], []⟩
      2 1 none (by decide) (by decide)).2.2⟩

/-- A list of stack positions is contiguous when it holds exactly 0..n-1. -/
def Contig (l : List Int) : Prop :=
  l.Nodup ∧ ∀ i : Int, i ∈ l ↔ 0 ≤ i ∧ i < (l.length : Int)

/-- The consecutive integers offs, offs+1, ..., offs+k-1. -/
def rangeNums (offs : Int) : Nat → List Int
  | 0 => []
  | k + 1 => offs :: rangeNums (offs + 1) k

theorem rangeNums_length : ∀ (k : Nat) (offs : Int), (rangeNums offs k).length = k := by
  intro k
  induction k with
  | zero =>
    intro offs
    rfl
  | succ n ih =>
    intro offs
    simp only [rangeNums, List.length_cons, ih]

theorem rangeNums_mem : ∀ (k : Nat) (offs i : Int),
    i ∈ rangeNums offs k ↔ offs ≤ i ∧ i < offs + k := by
  intro k
  induction k with
  | zero =>
    intro offs i
    simp only [rangeNums, List.not_mem_nil, false_iff]
    push_cast
    omega
  | succ n ih =>
    intro offs i
    simp only [rangeNums, List.mem_cons, ih]
    push_cast
    omega

theorem rangeNums_nodup : ∀ (k : Nat) (offs : Int), (rangeNums offs k).Nodup := by
  intro k
  induction k with
  | zero =>
    intro offs
    exact List.nodup_nil
  | succ n ih =>
    intro offs
    refine List.nodup_cons.mpr ⟨?_, ih (offs + 1)⟩
    rw [rangeNums_mem]
    omega

/-- Helper: a duplicate-free integer list whose members are exactly 0..m-1
has length m and is contiguous. -/
theorem contig_of_nodup_mem (l : List Int) (m : Nat) (hnd : l.Nodup)
    (hmem : ∀ i : Int, i ∈ l ↔ 0 ≤ i ∧ i < (m : Int)) :
    l.length = m ∧ Contig l := by
  have hrnd : (rangeNums 0 m).Nodup := rangeNums_nodup m 0
  have hfs : l.toFinset = (rangeNums 0 m).toFinset := by
    apply Finset.ext
    intro a
    rw [List.mem_toFinset, List.mem_toFinset, hmem a, rangeNums_mem]
    omega
  have hperm := List.perm_of_nodup_nodup_toFinset_eq hnd hrnd hfs
  have hlen : l.length = m := by
    rw [hperm.length_eq, rangeNums_length]
  exact ⟨hlen, hnd, fun i => by rw [hmem i, hlen]⟩

theorem foldl_max_mem (l : List Int) : ∀ a : Int, l.foldl max a = a ∨ l.foldl max a ∈ l := by
  induction l with
  | nil =>
    intro a
    exact Or.inl rfl
  | cons x xs ih =>
    intro a
    rw [List.foldl_cons]
    rcases ih (max a x) with h | h
    · rw [h]
      rcases max_cases a x with ⟨h1, _⟩ | ⟨h1, _⟩
      · exact Or.inl h1
      · exact Or.inr (by rw [h1]; exact List.mem_cons_self x xs)
    · exact Or.inr (List.mem_cons_of_mem x h)

theorem sqlMax_le (d : Int) (l : List Int) (b : Int) (hd : d ≤ b) (hb : ∀ y ∈ l, y ≤ b) :
    sqlMax d l ≤ b := by
  cases l with
  | nil => exact hd
  | cons x xs =>
    show xs.foldl max x ≤ b
    rcases foldl_max_mem xs x with h | h
    · rw [h]
      exact hb x (List.mem_cons_self x xs)
    · exact hb _ (List.mem_cons_of_mem x h)

/-- Helper: on a contiguous list the store's MAX aggregate is the length
minus one. -/
theorem contig_sqlMax (l : List Int) (hc : Contig l) :
    sqlMax (-1) l = (l.length : Int) - 1 := by
  rcases hc with ⟨_, hmem⟩
  by_cases hn : l = []
  · subst hn
    show (-1 : Int) = ((0 : Nat) : Int) - 1
    decide
  · have hlen : 0 < l.length := List.length_pos.mpr hn
    have hin : ((l.length : Int) - 1) ∈ l := (hmem _).mpr (by omega)
    apply le_antisymm
    · apply sqlMax_le
      · omega
      · intro y hy
        have := (hmem y).mp hy
        omega
    · exact le_sqlMax (-1) l _ hin

/-- Helper: a row-wise map that changes neither imgid nor num leaves an
image's stack positions unchanged. -/
theorem destNumsL_map_pres (h : List HRow) (d : Int) (f : HRow → HRow)
    (hf : ∀ r, (f r).imgid = r.imgid ∧ (f r).num = r.num) :
    destNumsL (h.map f) d = destNumsL h d := by
  unfold destNumsL
  induction h with
  | nil => rfl
  | cons r t ih =>
    rcases hf r with ⟨h1, h2⟩
    rw [List.map_cons, List.filter_cons, List.filter_cons]
    by_cases hd : r.imgid = d
    · rw [if_pos (by simp [h1, hd]), if_pos (by simp [hd]), List.map_cons, List.map_cons,
          h2, ih]
    · rw [if_neg (by simp [h1, hd]), if_neg (by simp [hd]), ih]

theorem relabelFamily_destNums (h : List HRow) (dest : Int) (op : String)
    (old nw d : Int) :
    destNumsL (relabelFamily h dest op old nw) d = destNumsL h d := by
  unfold relabelFamily
  apply destNumsL_map_pres
  intro r
  by_cases hc : r.imgid = dest ∧ r.operation = op ∧ r.multi_priority = old
  · rw [if_pos hc]
    exact ⟨rfl, rfl⟩
  · rw [if_neg hc]
    exact ⟨rfl, rfl⟩

theorem mergeStep_destNums (cat : String → Bool) (dest : Int) (st : MergeState)
    (g : HRow) (d : Int) :
    destNumsL (mergeStep cat dest st g).history d = destNumsL st.history d := by
  unfold mergeStep
  by_cases hc : cat g.operation = true
  · rw [if_pos hc]
  · rw [if_neg hc]
    cases hf : findMatch st.staging g.operation g.multi_name with
    | some r =>
      by_cases hr : 0 ≤ r.multi_priority
      · simp only [hf, if_pos hr]
        exact relabelFamily_destNums st.history dest g.operation g.multi_priority
          r.multi_priority d
      · simp only [hf, if_neg hr]
        exact relabelFamily_destNums st.history dest g.operation g.multi_priority _ d
    | none =>
      simp only [hf]
      exact relabelFamily_destNums st.history dest g.operation g.multi_priority _ d

theorem mergeLoop_destNums (cat : String → Bool) (dest d : Int) :
    ∀ (groups : List HRow) (st : MergeState),
    destNumsL (groups.foldl (mergeStep cat dest) st).history d = destNumsL st.history d := by
  intro groups
  induction groups with
  | nil =>
    intro st
    rfl
  | cons g gs ih =>
    intro st
    rw [List.foldl_cons, ih (mergeStep cat dest st g), mergeStep_destNums]

theorem rebuildAppend_destNums (cat : String → Bool) (dest : Int) (staging : List SRow)
    (history : List HRow) (d : Int) :
    destNumsL (_history_rebuild_multi_priority_append cat dest staging history) d
      = destNumsL history d := by
  unfold _history_rebuild_multi_priority_append
  rw [append_foldl_shift dest staging cat _ (List.nodup_dedup _) history]
  apply destNumsL_map_pres
  intro r
  by_cases hc : r.imgid = dest ∧ r.operation ∈ (staging.map (fun s => s.operation)).dedup
      ∧ ¬ (cat r.operation = true)
  · rw [if_pos hc]
    exact ⟨rfl, rfl⟩
  · rw [if_neg hc]
    exact ⟨rfl, rfl⟩

theorem rebuildMerge_destNums (cat : String → Bool) (dest : Int) (history : List HRow)
    (staging : List SRow) (d : Int) :
    destNumsL (dt_history_rebuild_multi_priority_merge cat dest history staging).1 d
      = destNumsL history d := by
  unfold dt_history_rebuild_multi_priority_merge
  rw [mergeLoop_destNums, rebuildAppend_destNums]

theorem destNumsL_append (l1 l2 : List HRow) (d : Int) :
    destNumsL (l1 ++ l2) d = destNumsL l1 d ++ destNumsL l2 d := by
  unfold destNumsL
  rw [List.filter_append, List.map_append]

theorem destNumsL_erase_self (l : List HRow) (d : Int) :
    destNumsL (l.filter (fun r => r.imgid ≠ d)) d = [] := by
  unfold destNumsL
  have hfe : (l.filter (fun r => r.imgid ≠ d)).filter (fun r => decide (r.imgid = d)) = [] := by
    rw [List.filter_eq_nil_iff]
    intro r hr
    have := (List.mem_filter.mp hr).2
    simpa using this
  rw [hfe, List.map_nil]

theorem insertRows_nums (d : Int) : ∀ (l : List SRow) (offs : Int),
    (insertRows d offs l).map (fun r => r.num) = rangeNums offs l.length := by
  intro l
  induction l with
  | nil =>
    intro offs
    rfl
  | cons s ss ih =>
    intro offs
    simp only [insertRows, List.map_cons, List.length_cons, rangeNums, ih]
    rfl

theorem insertRows_destNums (d : Int) (l : List SRow) (offs : Int) :
    destNumsL (insertRows d offs l) d = rangeNums offs l.length := by
  have hfe : (insertRows d offs l).filter (fun r => decide (r.imgid = d))
      = insertRows d offs l :=
    List.filter_eq_self.mpr (fun r hr => by simpa using insertRows_imgid d l offs r hr)
  unfold destNumsL
  rw [hfe, insertRows_nums]

/-- Helper: filtering history rows by a predicate that, on the destination's
rows, depends only on num commutes with extracting the destination's nums. -/
theorem destNumsL_filter_prop (dest : Int) (q : HRow → Bool) (qnum : Int → Bool)
    (hq : ∀ r : HRow, r.imgid = dest → q r = qnum r.num) :
    ∀ h : List HRow, destNumsL (h.filter q) dest = (destNumsL h dest).filter qnum := by
  intro h
  induction h with
  | nil => rfl
  | cons r t ih =>
    unfold destNumsL at ih ⊢
    by_cases hd : r.imgid = dest
    · rw [List.filter_cons]
      by_cases hqr : q r = true
      · rw [if_pos hqr, List.filter_cons, if_pos (by simp [hd]), List.map_cons,
            List.filter_cons, if_pos (by simp [hd]), List.map_cons, List.filter_cons,
            if_pos (by rw [← hq r hd]; exact hqr), ih]
      · rw [if_neg hqr, List.filter_cons, if_pos (by simp [hd]), List.map_cons,
            List.filter_cons, if_neg (by rw [← hq r hd]; exact hqr), ih]
    · rw [List.filter_cons]
      by_cases hqr : q r = true
      · rw [if_pos hqr, List.filter_cons, if_neg (by simp [hd]), List.filter_cons,
            if_neg (by simp [hd]), ih]
      · rw [if_neg hqr, List.filter_cons, if_neg (by simp [hd]), ih]

/-- Helper: shape of a merge-mode copy's final history: the reconciled
trimmed destination stack followed by the staging rows inserted at the next
free position. -/
theorem copy_merge_history (cat : String → Bool) (db : DB) (A B : Int)
    (ops : Option (List Int)) (hAB : A ≠ B) (hA : A ≠ -1) :
    (dt_history_copy_and_paste_on_image cat db A B true ops).2.history
      = (dt_history_rebuild_multi_priority_merge cat B
           (db.history.filter (trimKeep (historyEnd db.images B) B))
           (_dt_history_cleanup_multi_instance cat
             (stagingSelect (db.history.filter (trimKeep (historyEnd db.images B) B))
               A true ops))).1
        ++ insertRows B
            (sqlMax (-1)
              (destNumsL (db.history.filter (trimKeep (historyEnd db.images B) B)) B) + 1)
            (dt_history_rebuild_multi_priority_merge cat B
              (db.history.filter (trimKeep (historyEnd db.images B) B))
              (_dt_history_cleanup_multi_instance cat
                (stagingSelect (db.history.filter (trimKeep (historyEnd db.images B) B))
                  A true ops))).2 := by
  unfold dt_history_copy_and_paste_on_image
  rw [if_neg hAB, if_neg hA]
  rfl

/-- C2: starting from a destination whose stack positions are contiguous from
0, any copyAndPaste leaves the destination's set of positions exactly
{0, ..., n-1} for the new length n, and deleteHistory leaves it empty. -/
theorem c2_contiguity (cat : String → Bool) (db : DB) (imgid dest : Int) (merge : Bool)
    (ops : Option (List Int)) (h : Contig (destNumsL db.history dest)) :
    Contig (destNumsL
      (dt_history_copy_and_paste_on_image cat db imgid dest merge ops).2.history dest)
    ∧ destNumsL (dt_history_delete_on_image db dest).history dest = [] := by
  constructor
  · by_cases hsd : imgid = dest
    · have hng : dt_history_copy_and_paste_on_image cat db imgid dest merge ops = (1, db) := by
        unfold dt_history_copy_and_paste_on_image
        rw [if_pos hsd]
      rw [hng]
      exact h
    · by_cases hm1 : imgid = -1
      · have hng : dt_history_copy_and_paste_on_image cat db imgid dest merge ops
            = (1, db) := by
          unfold dt_history_copy_and_paste_on_image
          rw [if_neg hsd, if_pos hm1]
        rw [hng]
        exact h
      · cases merge with
        | false =>
          rcases copy_replace_parts cat db imgid dest ops hsd hm1 with ⟨hh, _⟩
          rw [hh, destNumsL_append, destNumsL_erase_self, insertRows_destNums,
              List.nil_append]
          set k := ((plainSelect (db.history.filter (fun r => r.imgid ≠ dest)) imgid
            ops).map toS).length with hk
          refine (contig_of_nodup_mem _ k (rangeNums_nodup k 0) ?_).2
          intro i
          rw [rangeNums_mem]
          omega
        | true =>
          rcases h with ⟨hnd, hmem⟩
          rw [copy_merge_history cat db imgid dest ops hsd hm1, destNumsL_append,
              rebuildMerge_destNums, insertRows_destNums]
          set n := (destNumsL db.history dest).length with hn
          set k := (dt_history_rebuild_multi_priority_merge cat dest
            (db.history.filter (trimKeep (historyEnd db.images dest) dest))
            (_dt_history_cleanup_multi_instance cat
              (stagingSelect (db.history.filter (trimKeep (historyEnd db.images dest) dest))
                imgid true ops))).2.length with hk
          cases hhe : historyEnd db.images dest with
          | none =>
            have htriv : ∀ r : HRow, r.imgid = dest →
                trimKeep none dest r = (fun (_ : Int) => true) r.num := by
              intro r _
              rfl
            have hl' : destNumsL (db.history.filter (trimKeep none dest)) dest
                = destNumsL db.history dest := by
              rw [destNumsL_filter_prop dest (trimKeep none dest) (fun _ => true) htriv,
                  List.filter_true]
            rw [hl']
            have hcon := contig_of_nodup_mem (destNumsL db.history dest) n hnd
              (fun i => by rw [hmem i, hn])
            have hoffs : sqlMax (-1) (destNumsL db.history dest) + 1 = (n : Int) := by
              rw [contig_sqlMax _ hcon.2, hcon.1]
              omega
            rw [hoffs]
            refine (contig_of_nodup_mem _ (n + k) ?_ ?_).2
            · refine (hnd.append (rangeNums_nodup k n) ?_)
              rw [List.disjoint_left]
              intro a ha hcon2
              have h1 := (hmem a).mp ha
              have h2 := (rangeNums_mem k n a).mp hcon2
              omega
            · intro i
              rw [List.mem_append, hmem i, rangeNums_mem]
              push_cast
              omega
          | some e =>
            have hqe : ∀ r : HRow, r.imgid = dest →
                trimKeep (some e) dest r = (fun n0 => decide (n0 < e)) r.num := by
              intro r hr
              show (!(decide (r.imgid = dest ∧ e ≤ r.num))) = decide (r.num < e)
              by_cases he : e ≤ r.num
              · rw [decide_eq_true ⟨hr, he⟩, decide_eq_false (show ¬ r.num < e by omega)]
                rfl
              · rw [decide_eq_false (show ¬ (r.imgid = dest ∧ e ≤ r.num) from
                  fun hcon => he hcon.2), decide_eq_true (show r.num < e by omega)]
                rfl
            have hl' : destNumsL (db.history.filter (trimKeep (some e) dest)) dest
                = (destNumsL db.history dest).filter (fun n0 => decide (n0 < e)) :=
              destNumsL_filter_prop dest (trimKeep (some e) dest) _ hqe db.history
            rw [hl']
            set m := min n e.toNat with hmdef
            have hmemf : ∀ i : Int,
                i ∈ (destNumsL db.history dest).filter (fun n0 => decide (n0 < e))
                  ↔ 0 ≤ i ∧ i < (m : Int) := by
              intro i
              rw [List.mem_filter, hmem i]
              simp only [decide_eq_true_eq]
              omega
            have hcon := contig_of_nodup_mem _ m
              (hnd.filter (fun n0 => decide (n0 < e))) hmemf
            have hoffs : sqlMax (-1)
                ((destNumsL db.history dest).filter (fun n0 => decide (n0 < e))) + 1
                = (m : Int) := by
              rw [contig_sqlMax _ hcon.2, hcon.1]
              omega
            rw [hoffs]
            refine (contig_of_nodup_mem _ (m + k) ?_ ?_).2
            · refine ((hnd.filter _).append (rangeNums_nodup k m) ?_)
              rw [List.disjoint_left]
              intro a ha hcon2
              have h1 := (hmemf a).mp ha
              have h2 := (rangeNums_mem k m a).mp hcon2
              omega
            · intro i
              rw [List.mem_append, hmemf i, rangeNums_mem]
              push_cast
              omega
  · unfold dt_history_delete_on_image
    exact destNumsL_erase_self db.history dest

/-- Witness for C2: a destination with stack positions 0, 1 receiving a merge
copy from a one-entry source. -/
theorem c2_witness :
    Contig (destNumsL
      ([⟨1, 0, 1, "a", 0, true, 0, 1, 0, "0"⟩, ⟨1, 1, 1, "b", 0, true, 0, 1, 0, "0"⟩,
        ⟨2, 0, 1, "c", 5, true, 0, 1, 0, "0"⟩] : List HRow) 1) ∧
    Contig (destNumsL
      (dt_history_copy_and_paste_on_image (fun _ => false)
        ⟨[⟨1, 0, 1, "a", 0, true, 0, 1, 0, "0"⟩, ⟨1, 1, 1, "b", 0, true, 0, 1, 0, "0"⟩,
          ⟨2, 0, 1, "c", 5, true, 0, 1, 0, "0"⟩],
         [(1, some 2), (2, some 1)], [], []⟩ 2 1 true none).2.history 1) := by
  have he : destNumsL
      ([⟨1, 0, 1, "a", 0, true, 0, 1, 0, "0"⟩, ⟨1, 1, 1, "b", 0, true, 0, 1, 0, "0"⟩,
        ⟨2, 0, 1, "c", 5, true, 0, 1, 0, "0"⟩] : List HRow) 1 = [0, 1] := by decide
  have hc : Contig (destNumsL
      ([⟨1, 0, 1, "a", 0, true, 0, 1, 0, "0"⟩, ⟨1, 1, 1, "b", 0, true, 0, 1, 0, "0"⟩,
        ⟨2, 0, 1, "c", 5, true, 0, 1, 0, "0"⟩] : List HRow) 1) := by
    refine ⟨by rw [he]; decide, ?_⟩
    intro i
    rw [he]
    simp only [List.mem_cons, List.not_mem_nil, or_false, List.length_cons,
      List.length_nil]
    push_cast
    omega
  exact ⟨hc,
    (c2_contiguity (fun _ => false)
      ⟨[⟨1, 0, 1, "a", 0, true, 0, 1, 0, "0"⟩, ⟨1, 1, 1, "b", 0, true, 0, 1, 0, "0"⟩,
        ⟨2, 0, 1, "c", 5, true, 0, 1, 0, "0"⟩],
       [(1, some 2), (2, some 1)], [], []⟩ 2 1 true none hc).1⟩

/-- The live instance numbers of one operation on one image: the distinct
multi_priority values among its history rows. -/
def liveInstances (h : List HRow) (d : Int) (op : String) : List Int :=
  ((h.filter (fun r => r.imgid = d ∧ r.operation = op)).map
    (fun r => r.multi_priority)).dedup

theorem dedup_all_zero (l : List Int) (hne : l ≠ []) (h0 : ∀ x ∈ l, x = 0) :
    l.dedup = [0] := by
  induction l with
  | nil => exact absurd rfl hne
  | cons a t ih =>
    have ha : a = 0 := h0 a (List.mem_cons_self a t)
    by_cases ht : t = []
    · subst ht
      subst ha
      decide
    · have hd : t.dedup = [0] := ih ht (fun x hx => h0 x (List.mem_cons_of_mem _ hx))
      have hmem0 : a ∈ t := by
        rw [ha]
        cases t with
        | nil => exact absurd rfl ht
        | cons b tb =>
          have hb : b = 0 := h0 b (List.mem_cons_of_mem _ (List.mem_cons_self b tb))
          rw [← hb]
          exact List.mem_cons_self b tb
      rw [List.dedup_cons_of_mem hmem0, hd]

theorem foldl_pick_mem (xs : List HRow) : ∀ a : HRow,
    xs.foldl (fun a b => if a.num < b.num then b else a) a = a
      ∨ xs.foldl (fun a b => if a.num < b.num then b else a) a ∈ xs := by
  induction xs with
  | nil =>
    intro a
    exact Or.inl rfl
  | cons x t ih =>
    intro a
    rw [List.foldl_cons]
    rcases ih (if a.num < x.num then x else a) with h | h
    · rw [h]
      by_cases hc : a.num < x.num
      · rw [if_pos hc]
        exact Or.inr (List.mem_cons_self _ _)
      · rw [if_neg hc]
        exact Or.inl rfl
    · exact Or.inr (List.mem_cons_of_mem _ h)

theorem maxNumRow_mem (l : List HRow) (r : HRow) (h : maxNumRow l = some r) : r ∈ l := by
  cases l with
  | nil => cases h
  | cons x xs =>
    have h2 : xs.foldl (fun a b => if a.num < b.num then b else a) x = r :=
      Option.some.inj h
    rcases foldl_pick_mem xs x with hm | hm
    · have hxr : x = r := hm.symm.trans h2
      rw [← hxr]
      exact List.mem_cons_self x xs
    · rw [h2] at hm
      exact List.mem_cons_of_mem x hm

theorem collapseSelect_mem (h : List HRow) (imgid : Int) (r : HRow)
    (hr : r ∈ collapseSelect h imgid) : r ∈ h.filter (fun r => r.imgid = imgid) := by
  unfold collapseSelect at hr
  have hr2 := (List.perm_insertionSort numLe _).subset hr
  rcases List.mem_filterMap.mp hr2 with ⟨k, _, hk⟩
  have := maxNumRow_mem _ _ hk
  exact List.mem_of_mem_filter this

theorem plainSelect_mem (h : List HRow) (imgid : Int) (ops : Option (List Int)) (r : HRow)
    (hr : r ∈ plainSelect h imgid ops) : r ∈ h.filter (fun r => r.imgid = imgid) :=
  List.mem_of_mem_filter hr

theorem stagingSelect_sub (h : List HRow) (imgid : Int) (merge : Bool)
    (ops : Option (List Int)) (s : SRow) (hs : s ∈ stagingSelect h imgid merge ops) :
    ∃ r ∈ h.filter (fun r => r.imgid = imgid), s = toS r := by
  unfold stagingSelect at hs
  by_cases hc : merge ∧ ops = none
  · rw [if_pos hc] at hs
    rcases List.mem_map.mp hs with ⟨r, hr, heq⟩
    exact ⟨r, collapseSelect_mem h imgid r hr, heq.symm⟩
  · rw [if_neg hc] at hs
    rcases List.mem_map.mp hs with ⟨r, hr, heq⟩
    exact ⟨r, plainSelect_mem h imgid ops r hr, heq.symm⟩

theorem stagingSelect_congr (h1 h2 : List HRow) (imgid : Int) (merge : Bool)
    (ops : Option (List Int))
    (he : h1.filter (fun r => r.imgid = imgid) = h2.filter (fun r => r.imgid = imgid)) :
    stagingSelect h1 imgid merge ops = stagingSelect h2 imgid merge ops := by
  unfold stagingSelect collapseSelect plainSelect
  rw [he]

theorem assignNew_fst_mem : ∀ (t : List SRow) (op0 : String) (c0 : Int) (p : SRow × Int),
    p ∈ assignNew op0 c0 t → p.1 ∈ t := by
  intro t
  induction t with
  | nil =>
    intro op0 c0 p hp
    simp only [assignNew] at hp
    cases hp
  | cons x rest ih =>
    intro op0 c0 p hp
    simp only [assignNew] at hp
    by_cases hc : x.operation ≠ op0
    · rw [if_pos hc] at hp
      rcases List.mem_cons.mp hp with h1 | h2
      · rw [h1]
        exact List.mem_cons_self x rest
      · exact List.mem_cons_of_mem _ (ih _ _ _ h2)
    · rw [if_neg hc] at hp
      rcases List.mem_cons.mp hp with h1 | h2
      · rw [h1]
        exact List.mem_cons_self x rest
      · exact List.mem_cons_of_mem _ (ih _ _ _ h2)

theorem cleanupChanges_fst (cat : String → Bool) (s : List SRow) (p : SRow × Int)
    (hp : p ∈ cleanupChanges cat s) : p.1 ∈ s ∧ cat p.1.operation = false := by
  unfold cleanupChanges at hp
  have hp2 := List.mem_of_mem_filter hp
  have hp3 := assignNew_fst_mem _ _ _ _ hp2
  unfold cleanupSorted at hp3
  have hp4 := List.mem_filter.mp hp3
  refine ⟨(List.perm_insertionSort srowLe s).subset hp4.1, ?_⟩
  have := hp4.2
  simp only [Bool.not_eq_true'] at this
  exact this

/-- Helper: a duplicate-free selection of rows from a stack with distinct
nums again has distinct nums. -/
theorem nums_nodup_of_values (rows l : List HRow)
    (hrn : (rows.map (fun r => r.num)).Nodup)
    (hlnd : l.Nodup) (hsub : ∀ x ∈ l, x ∈ rows) :
    (l.map (fun r => r.num)).Nodup := by
  have hrp : rows.Pairwise (fun a b => a.num ≠ b.num) := List.pairwise_map.mp hrn
  have hforall : ∀ a ∈ rows, ∀ b ∈ rows, a ≠ b → a.num ≠ b.num := by
    intro a ha b hb hne
    exact hrp.forall (fun x y hxy => hxy.symm) ha hb hne
  exact List.pairwise_map.mpr
    (List.Pairwise.imp_of_mem
      (fun ha hb hne => hforall _ (hsub _ ha) _ (hsub _ hb) hne) hlnd)

theorem collapseSelect_nodup (h : List HRow) (imgid : Int) :
    (collapseSelect h imgid).Nodup := by
  unfold collapseSelect
  rw [(List.perm_insertionSort numLe _).nodup_iff]
  apply List.Nodup.filterMap
  · intro k1 k2 b hb1 hb2
    have h1 := maxNumRow_mem _ _ (Option.mem_def.mp hb1)
    have h2 := maxNumRow_mem _ _ (Option.mem_def.mp hb2)
    have p1 := (List.mem_filter.mp h1).2
    have p2 := (List.mem_filter.mp h2).2
    simp only [decide_eq_true_eq] at p1 p2
    have : (k1.1, k1.2) = (k2.1, k2.2) := by
      rw [← p1.1, ← p1.2, ← p2.1, ← p2.2]
    calc k1 = (k1.1, k1.2) := rfl
      _ = (k2.1, k2.2) := this
      _ = k2 := rfl
  · exact List.nodup_dedup _

/-- Helper: the staging set built from a stack with distinct nums has
distinct nums. -/
theorem stagingSelect_nums_nodup (h : List HRow) (imgid : Int) (merge : Bool)
    (ops : Option (List Int))
    (hrn : ((h.filter (fun r => r.imgid = imgid)).map (fun r => r.num)).Nodup) :
    ((stagingSelect h imgid merge ops).map (fun s => s.num)).Nodup := by
  unfold stagingSelect
  by_cases hc : merge ∧ ops = none
  · rw [if_pos hc, List.map_map]
    show ((collapseSelect h imgid).map (fun r => r.num)).Nodup
    exact nums_nodup_of_values (h.filter (fun r => r.imgid = imgid)) _ hrn
      (collapseSelect_nodup h imgid) (fun x hx => collapseSelect_mem h imgid x hx)
  · rw [if_neg hc, List.map_map]
    show ((plainSelect h imgid ops).map (fun r => r.num)).Nodup
    unfold plainSelect
    exact hrn.sublist
      ((List.filter_sublist (h.filter (fun r => decide (r.imgid = imgid)))).map
        (fun r : HRow => r.num))

/-- Helper: when staging nums are value-determining, the cleanup never
touches a single-instance operation's rows: their instances survive and any
such row keeps its instance. -/
theorem cleanup_single_props (cat : String → Bool) (s : List SRow) (op : String)
    (hcat : cat op = true)
    (hinj : ∀ a ∈ s, ∀ b ∈ s, a.num = b.num → a = b)
    (h0 : ∀ x ∈ s, x.operation = op → x.multi_priority = 0)
    (hE : ∃ x ∈ s, x.operation = op) :
    (∀ x ∈ _dt_history_cleanup_multi_instance cat s,
      x.operation = op → x.multi_priority = 0)
    ∧ (∃ x ∈ _dt_history_cleanup_multi_instance cat s, x.operation = op) := by
  unfold _dt_history_cleanup_multi_instance
  by_cases hch : cleanupChanges cat s = []
  · rw [if_pos hch]
    exact ⟨h0, hE⟩
  · rw [if_neg hch]
    constructor
    · intro x hx hxo
      rcases List.mem_map.mp hx with ⟨y, hy, heq⟩
      unfold applyChanges at heq
      cases hfind : (cleanupChanges cat s).find? (fun p => p.1.num = y.num) with
      | none =>
        rw [hfind] at heq
        subst heq
        exact h0 y hy hxo
      | some p =>
        exfalso
        rw [hfind] at heq
        have hyop : y.operation = op := by
          rw [← hxo, ← heq]
        have hp := cleanupChanges_fst cat s p (List.mem_of_find?_eq_some hfind)
        have hnum : p.1.num = y.num := by
          have := List.find?_some hfind
          simpa using this
        have hpy : p.1 = y := hinj p.1 hp.1 y hy hnum
        have : cat op = false := by
          rw [← hyop, ← hpy]
          exact hp.2
        rw [hcat] at this
        cases this
    · rcases hE with ⟨x, hx, hxo⟩
      refine ⟨applyChanges (cleanupChanges cat s) x, List.mem_map_of_mem _ hx, ?_⟩
      unfold applyChanges
      cases hfind : (cleanupChanges cat s).find? (fun p => p.1.num = x.num) with
      | none => exact hxo
      | some p => exact hxo

/-- Helper: Phase A never changes the instance of a single-instance
operation's destination rows. -/
theorem rebuildAppend_op_mp (cat : String → Bool) (dest : Int) (staging : List SRow)
    (history : List HRow) (op : String) (hcat : cat op = true)
    (hP : ∀ r ∈ history, r.imgid = dest → r.operation = op → r.multi_priority = 0) :
    ∀ r ∈ _history_rebuild_multi_priority_append cat dest staging history,
      r.imgid = dest → r.operation = op → r.multi_priority = 0 := by
  unfold _history_rebuild_multi_priority_append
  rw [append_foldl_shift dest staging cat _ (List.nodup_dedup _) history]
  intro r hr hd ho
  rcases List.mem_map.mp hr with ⟨r0, hr0, heq⟩
  by_cases hc : r0.imgid = dest ∧ r0.operation ∈ (staging.map (fun s => s.operation)).dedup
      ∧ ¬ (cat r0.operation = true)
  · rw [if_pos hc] at heq
    exfalso
    apply hc.2.2
    have hop : r0.operation = op := by
      rw [← ho, ← heq]
    rw [hop]
    exact hcat
  · rw [if_neg hc] at heq
    subst heq
    exact hP r0 hr0 hd ho

theorem relabelFamily_op_mp (hist : List HRow) (dest : Int) (gop : String) (old nw : Int)
    (op : String) (hne : gop ≠ op)
    (hP : ∀ r ∈ hist, r.imgid = dest → r.operation = op → r.multi_priority = 0) :
    ∀ r ∈ relabelFamily hist dest gop old nw,
      r.imgid = dest → r.operation = op → r.multi_priority = 0 := by
  intro r hr hd ho
  rcases List.mem_map.mp hr with ⟨r0, hr0, heq⟩
  by_cases hc : r0.imgid = dest ∧ r0.operation = gop ∧ r0.multi_priority = old
  · rw [if_pos hc] at heq
    exfalso
    apply hne
    rw [← hc.2.1]
    rw [← ho, ← heq]
  · rw [if_neg hc] at heq
    subst heq
    exact hP r0 hr0 hd ho

theorem consumeNum_op_props (stag : List SRow) (n : Int) (op : String)
    (hPs : ∀ s ∈ stag, s.operation = op → s.multi_priority = 0)
    (hEs : ∃ s ∈ stag, s.operation = op) :
    (∀ s ∈ consumeNum stag n, s.operation = op → s.multi_priority = 0)
    ∧ (∃ s ∈ consumeNum stag n, s.operation = op) := by
  constructor
  · intro s hs hso
    rcases List.mem_map.mp hs with ⟨s0, hs0, heq⟩
    by_cases hc : s0.num = n
    · rw [if_pos hc] at heq
      have hmp : s.multi_priority = s0.multi_priority := by
        rw [← heq]
      rw [hmp]
      apply hPs s0 hs0
      rw [← heq] at hso
      exact hso
    · rw [if_neg hc] at heq
      subst heq
      exact hPs s0 hs0 hso
  · rcases hEs with ⟨s0, hs0, hso⟩
    refine ⟨(if s0.num = n then { s0 with num := -1 } else s0),
      List.mem_map_of_mem _ hs0, ?_⟩
    by_cases hc : s0.num = n
    · rw [if_pos hc]
      exact hso
    · rw [if_neg hc]
      exact hso

theorem mergeStep_op_props (cat : String → Bool) (dest : Int) (op : String)
    (hcat : cat op = true) (st : MergeState) (g : HRow)
    (hPh : ∀ r ∈ st.history, r.imgid = dest → r.operation = op → r.multi_priority = 0)
    (hPs : ∀ s ∈ st.staging, s.operation = op → s.multi_priority = 0)
    (hEs : ∃ s ∈ st.staging, s.operation = op) :
    (∀ r ∈ (mergeStep cat dest st g).history,
      r.imgid = dest → r.operation = op → r.multi_priority = 0)
    ∧ (∀ s ∈ (mergeStep cat dest st g).staging, s.operation = op → s.multi_priority = 0)
    ∧ (∃ s ∈ (mergeStep cat dest st g).staging, s.operation = op) := by
  unfold mergeStep
  by_cases hc : cat g.operation = true
  · rw [if_pos hc]
    exact ⟨hPh, hPs, hEs⟩
  · rw [if_neg hc]
    have hne : g.operation ≠ op := fun hcon => hc (by rw [hcon]; exact hcat)
    cases hf : findMatch st.staging g.operation g.multi_name with
    | some r =>
      by_cases hr : 0 ≤ r.multi_priority
      · simp only [hf, if_pos hr]
        exact ⟨relabelFamily_op_mp st.history dest g.operation g.multi_priority
            r.multi_priority op hne hPh,
          (consumeNum_op_props st.staging r.num op hPs hEs).1,
          (consumeNum_op_props st.staging r.num op hPs hEs).2⟩
      · simp only [hf, if_neg hr]
        exact ⟨relabelFamily_op_mp st.history dest g.operation g.multi_priority _ op hne hPh,
          hPs, hEs⟩
    | none =>
      simp only [hf]
      exact ⟨relabelFamily_op_mp st.history dest g.operation g.multi_priority _ op hne hPh,
        hPs, hEs⟩

theorem mergeLoop_op_props (cat : String → Bool) (dest : Int) (op : String)
    (hcat : cat op = true) :
    ∀ (groups : List HRow) (st : MergeState),
    (∀ r ∈ st.history, r.imgid = dest → r.operation = op → r.multi_priority = 0) →
    (∀ s ∈ st.staging, s.operation = op → s.multi_priority = 0) →
    (∃ s ∈ st.staging, s.operation = op) →
    ((∀ r ∈ (groups.foldl (mergeStep cat dest) st).history,
        r.imgid = dest → r.operation = op → r.multi_priority = 0)
     ∧ (∀ s ∈ (groups.foldl (mergeStep cat dest) st).staging,
        s.operation = op → s.multi_priority = 0)
     ∧ (∃ s ∈ (groups.foldl (mergeStep cat dest) st).staging, s.operation = op)) := by
  intro groups
  induction groups with
  | nil =>
    intro st hPh hPs hEs
    exact ⟨hPh, hPs, hEs⟩
  | cons g gs ih =>
    intro st hPh hPs hEs
    rw [List.foldl_cons]
    rcases mergeStep_op_props cat dest op hcat st g hPh hPs hEs with ⟨h1, h2, h3⟩
    exact ih (mergeStep cat dest st g) h1 h2 h3

theorem insertRows_op_mp (dest : Int) (op : String) :
    ∀ (l : List SRow) (offs : Int),
    (∀ s ∈ l, s.operation = op → s.multi_priority = 0) →
    (∀ r ∈ insertRows dest offs l, r.operation = op → r.multi_priority = 0) := by
  intro l
  induction l with
  | nil =>
    intro offs _ r hr
    cases hr
  | cons s ss ih =>
    intro offs hl r hr
    rcases List.mem_cons.mp hr with h1 | h2
    · subst h1
      intro ho
      exact hl s (List.mem_cons_self s ss) ho
    · exact ih (offs + 1) (fun x hx => hl x (List.mem_cons_of_mem _ hx)) r h2

theorem insertRows_op_exists (dest : Int) (op : String) :
    ∀ (l : List SRow) (offs : Int), (∃ s ∈ l, s.operation = op) →
    ∃ r ∈ insertRows dest offs l, r.imgid = dest ∧ r.operation = op := by
  intro l
  induction l with
  | nil =>
    intro offs h
    rcases h with ⟨s, hs, _⟩
    cases hs
  | cons s ss ih =>
    intro offs h
    rcases h with ⟨s0, hs0, hso⟩
    rcases List.mem_cons.mp hs0 with h1 | h2
    · subst h1
      exact ⟨fromS dest offs s0, List.mem_cons_self _ _, rfl, hso⟩
    · rcases ih (offs + 1) ⟨s0, h2, hso⟩ with ⟨r, hr, hprops⟩
      exact ⟨r, List.mem_cons_of_mem _ hr, hprops⟩

theorem rebuildMerge_op_props (cat : String → Bool) (dest : Int) (op : String)
    (hcat : cat op = true) (history : List HRow) (staging : List SRow)
    (hPh : ∀ r ∈ history, r.imgid = dest → r.operation = op → r.multi_priority = 0)
    (hPs : ∀ s ∈ staging, s.operation = op → s.multi_priority = 0)
    (hEs : ∃ s ∈ staging, s.operation = op) :
    (∀ r ∈ (dt_history_rebuild_multi_priority_merge cat dest history staging).1,
      r.imgid = dest → r.operation = op → r.multi_priority = 0)
    ∧ (∀ s ∈ (dt_history_rebuild_multi_priority_merge cat dest history staging).2,
      s.operation = op → s.multi_priority = 0)
    ∧ (∃ s ∈ (dt_history_rebuild_multi_priority_merge cat dest history staging).2,
      s.operation = op) := by
  unfold dt_history_rebuild_multi_priority_merge
  exact mergeLoop_op_props cat dest op hcat _ _
    (rebuildAppend_op_mp cat dest staging history op hcat hPh) hPs hEs

/-- C7: merging a single-instance operation's entry onto a destination that
already has a live instance of it (both sides numbered 0, per the invariant)
leaves every destination row of that operation at instance 0 and exactly one
live instance: the incoming entry aligns with, and supersedes, the old one;
it is never renumbered and never appended as a second instance. -/
theorem c7_single_instance (cat : String → Bool) (db : DB) (src dest : Int)
    (ops : Option (List Int)) (op : String)
    (hsd : src ≠ dest) (hsm1 : src ≠ -1) (hsingle : cat op = true)
    (hnodup : ((db.history.filter (fun r => r.imgid = src)).map (fun r => r.num)).Nodup)
    (hdest0 : ∀ r ∈ db.history, r.imgid = dest → r.operation = op → r.multi_priority = 0)
    (hsrc0 : ∀ r ∈ db.history, r.imgid = src → r.operation = op → r.multi_priority = 0)
    (hdest1 : ∃ r ∈ db.history, r.imgid = dest ∧ r.operation = op)
    (hstag : ∃ s ∈ stagingSelect db.history src true ops, s.operation = op) :
    (∀ r ∈ (dt_history_copy_and_paste_on_image cat db src dest true ops).2.history,
       r.imgid = dest → r.operation = op → r.multi_priority = 0)
    ∧ liveInstances
        (dt_history_copy_and_paste_on_image cat db src dest true ops).2.history dest op
      = [0] := by
  have hsrcfilter : (db.history.filter (trimKeep (historyEnd db.images dest) dest)).filter
      (fun r => r.imgid = src) = db.history.filter (fun r => r.imgid = src) := by
    rw [List.filter_filter]
    apply List.filter_congr
    intro r _
    by_cases hr : r.imgid = src
    · have htk : trimKeep (historyEnd db.images dest) dest r = true := by
        cases historyEnd db.images dest with
        | none => rfl
        | some e =>
          show (!(decide (r.imgid = dest ∧ e ≤ r.num))) = true
          rw [decide_eq_false (show ¬(r.imgid = dest ∧ e ≤ r.num) from
            fun hcon => hsd (hr.symm.trans hcon.1))]
          rfl
      rw [htk]
      simp [hr]
    · simp [hr]
  have hstag2 : stagingSelect (db.history.filter (trimKeep (historyEnd db.images dest) dest))
      src true ops = stagingSelect db.history src true ops :=
    stagingSelect_congr _ _ src true ops hsrcfilter
  have hstag0mp : ∀ s ∈ stagingSelect db.history src true ops,
      s.operation = op → s.multi_priority = 0 := by
    intro s hs hso
    rcases stagingSelect_sub db.history src true ops s hs with ⟨r, hr, heq⟩
    have hrsrc : r.imgid = src := by
      have := (List.mem_filter.mp hr).2
      simpa using this
    have h0 : r.multi_priority = 0 := hsrc0 r (List.mem_of_mem_filter hr) hrsrc
      (by rw [heq] at hso; exact hso)
    rw [heq]
    exact h0
  have hstag0nodup := stagingSelect_nums_nodup db.history src true ops hnodup
  have hstag0inj : ∀ a ∈ stagingSelect db.history src true ops,
      ∀ b ∈ stagingSelect db.history src true ops, a.num = b.num → a = b := by
    intro a ha b hb hnum
    by_contra hne
    have hp : (stagingSelect db.history src true ops).Pairwise (fun x y => x.num ≠ y.num) :=
      List.pairwise_map.mp hstag0nodup
    exact hp.forall (fun x y hxy => hxy.symm) ha hb hne hnum
  rcases cleanup_single_props cat (stagingSelect db.history src true ops) op hsingle
    hstag0inj hstag0mp hstag with ⟨hcl1, hcl2⟩
  have hP1 : ∀ r ∈ db.history.filter (trimKeep (historyEnd db.images dest) dest),
      r.imgid = dest → r.operation = op → r.multi_priority = 0 :=
    fun r hr => hdest0 r (List.mem_of_mem_filter hr)
  rcases rebuildMerge_op_props cat dest op hsingle
    (db.history.filter (trimKeep (historyEnd db.images dest) dest))
    (_dt_history_cleanup_multi_instance cat (stagingSelect db.history src true ops))
    hP1 hcl1 hcl2 with ⟨hmp1, hmp2, hmp3⟩
  have hpost := copy_merge_history cat db src dest ops hsd hsm1
  rw [hstag2] at hpost
  have hfinP : ∀ r ∈ (dt_history_copy_and_paste_on_image cat db src dest true ops).2.history,
      r.imgid = dest → r.operation = op → r.multi_priority = 0 := by
    rw [hpost]
    intro r hr
    rcases List.mem_append.mp hr with h1 | h1
    · exact hmp1 r h1
    · intro _ ho
      exact insertRows_op_mp dest op _ _ hmp2 r h1 ho
  have hfinE : ∃ r ∈ (dt_history_copy_and_paste_on_image cat db src dest true ops).2.history,
      r.imgid = dest ∧ r.operation = op := by
    rw [hpost]
    rcases insertRows_op_exists dest op
      (dt_history_rebuild_multi_priority_merge cat dest
        (db.history.filter (trimKeep (historyEnd db.images dest) dest))
        (_dt_history_cleanup_multi_instance cat (stagingSelect db.history src true ops))).2
      (sqlMax (-1) (destNumsL
        (db.history.filter (trimKeep (historyEnd db.images dest) dest)) dest) + 1) hmp3
      with ⟨r, hr, hprops⟩
    exact ⟨r, List.mem_append.mpr (Or.inr hr), hprops⟩
  refine ⟨hfinP, ?_⟩
  unfold liveInstances
  apply dedup_all_zero
  · rcases hfinE with ⟨r, hr, hd, ho⟩
    have hmm : r.multi_priority ∈ ((dt_history_copy_and_paste_on_image cat db src dest
        true ops).2.history.filter (fun r => r.imgid = dest ∧ r.operation = op)).map
        (fun r => r.multi_priority) :=
      List.mem_map_of_mem _ (List.mem_filter.mpr ⟨hr, by simp [hd, ho]⟩)
    exact List.ne_nil_of_mem hmm
  · intro x hx
    rcases List.mem_map.mp hx with ⟨r, hr, heq⟩
    have hmf := List.mem_filter.mp hr
    have hprops := hmf.2
    simp only [decide_eq_true_eq] at hprops
    rw [← heq]
    exact hfinP r hmf.1 hprops.1 hprops.2

/-- Witness for C7: one exposure entry copied in merge mode onto a
destination that already has an exposure instance. -/
theorem c7_witness :
    ((fun s => decide (s = "exposure")) "exposure" = true) ∧
    liveInstances
      (dt_history_copy_and_paste_on_image (fun s => decide (s = "exposure"))
        ⟨[⟨1, 0, 1, "exposure", 3, true, 0, 1, 0, "0"⟩,
          ⟨2, 0, 1, "exposure", 9, true, 0, 1, 0, "0"⟩],
         [(1, some 1), (2, some 1)], [], []⟩ 2 1 true none).2.history 1 "exposure"
      = [0] :=
  ⟨by decide,
   (c7_single_instance (fun s => decide (s = "exposure"))
      ⟨[⟨1, 0, 1, "exposure", 3, true, 0, 1, 0, "0"⟩,
        ⟨2, 0, 1, "exposure", 9, true, 0, 1, 0, "0"⟩],
       [(1, some 1), (2, some 1)], [], []⟩ 2 1 none "exposure"
      (by decide) (by decide) (by decide) (by decide) (by decide) (by decide)
      (by decide) (by decide)).2⟩
